import Mathlib

/-!
# meowngine: entity lifecycle, component storage and the run loop

A shallow embedding of the entity table, the free list of identities and the
per-type component registries of `world.engine.go`, `registry.engine.go` and
`component.engine.go`, and of the registration of phases, the dispatch of a
phase and `Run` of `world.engine.go` with `PipedSystem` of
`operation.engine.go`.

Conventions of the embedding:

* `ID` is Go's `uint64`, carried as a natural number; `id+1` is computed modulo
  `2 ^ 64` (`idSucc`) and a conversion `ID(n)` is `toID n`.
* A Go slice is a list; a run-time panic, of an index outside the slice or of a
  method call on a nil interface, is reported by every operation as `none`. The
  length of a Go slice is a non-negative `int`; the statements about reachable
  worlds carry this bound on the entity table as the hypothesis `Fits`.
* A pointer into the world is replaced by passing the world explicitly and by
  writing a mutated registry back under its key.
* A component type `C` is identified with the key `keyComp.Name()` under which
  its registry is stored; since the Go map keeps every registry at the erased
  type `registry[Component]`, component values of all types share one carrier
  `V`, whose `default` plays the role of the zero value.
* `SpawnEntity` and `DeleteEntity` reach the registries of the map at the erased
  type `registry[Component]`: the flag and the position of a slot are read as in
  the typed registry, and a call of a method of the erased `Data` does not
  return (`erasedName`).
* `fmt.Errorf` keeps its format string and the errors it wraps; the rendered
  `%d` and `%s` operands only change the message text and are left out.
* The struct `World` is split in three: the entity and component part (`World`),
  what a running action or system works on (`Game`: that part, the state payload
  and the quit flag), and the registration tables (`Schedule`), which stay as
  they are while `Run` is in progress.
* `dispatchPhase`, the loops and `Run` return, next to the Go results, a log of
  the calls they made (`Event`); the loop `for !world.shouldQuit` takes a bound
  on the number of sweeps and is `none` when the bound is used up.
* The concurrent stage of `dispatchPhase` (`eg.Go` on every system, then
  `eg.Wait()`) is a parameter (`FanOut`) giving the world and the error it leaves;
  an `iter.Seq` is a finite list.
-/

namespace Meowngine

/-! ## Errors -/

/-- The package-level error values of `errors.engine.go`. -/
inductive Sentinel where
  | ErrNoEntity
  | ErrEntityDeleted
  | ErrComponentCleanupFailed
  | ErrAlreadyAssigned
  | ErrNotAssigned
  | ErrTypeAssertionFailed
  | ErrRegistryBadSize
  | ErrFatal
  deriving DecidableEq, Repr

/-- A non-nil Go error: a package-level value, the result of `fmt.Errorf` with
one or two `%w` verbs, or the result of `errors.Join` that kept one or two
non-nil arguments. -/
inductive GoError where
  | sentinel (s : Sentinel)
  | errorf (format : String) (inner : GoError)
  | errorf2 (format : String) (a b : GoError)
  | join1 (a : GoError)
  | join2 (a b : GoError)
  deriving DecidableEq, Repr

/-- The test `errors.Is(err, target)` for a non-nil `err` and a package-level
target: the target is `err` itself or is found by unwrapping. -/
def GoError.Is : GoError → Sentinel → Bool
  | .sentinel s, t => decide (s = t)
  | .errorf _ inner, t => inner.Is t
  | .errorf2 _ a b, t => a.Is t || b.Is t
  | .join1 a, t => a.Is t
  | .join2 a b, t => a.Is t || b.Is t

/-- The call `errors.Join(a, b)`: nil arguments are dropped, and the result is
nil when nothing is left. -/
def Join : Option GoError → Option GoError → Option GoError
  | none, none => none
  | some a, none => some (.join1 a)
  | none, some b => some (.join1 b)
  | some a, some b => some (.join2 a b)

/-- The test `errors.Is(err, target)` for a possibly nil `err`. -/
def Is : Option GoError → Sentinel → Bool
  | none, _ => false
  | some e, t => e.Is t

/-! ## Identities and entities -/

/-- The type `ID` (`uint64`). -/
abbrev ID := Nat

/-- The conversion `ID(n)` of a Go integer. -/
def toID (n : Nat) : ID := n % 2 ^ 64

/-- The expression `id+1` on `ID`. -/
def idSucc (id : ID) : ID := (id + 1) % 2 ^ 64

/-- The struct `Entity`; the back pointer to the world is the world passed
along with the handle, and the tag set is a list of tags. -/
structure Entity where
  id : ID
  deleted : Bool
  tags : List String
  deriving DecidableEq, Repr

/-! ## Registries -/

/-- The struct `componentWrapper`. -/
structure componentWrapper (V : Type) where
  assigned : Bool
  Data : V
  deriving DecidableEq, Repr

/-- The struct `registry`. -/
structure registry (V : Type) where
  items : List (componentWrapper V)
  deriving DecidableEq, Repr

/-- The function `newRegistry`: `lastID+1` zero-valued slots (the capacity of
the slice is not observable and is left out). -/
def newRegistry {V : Type} [Inhabited V] (lastID : ID) : registry V :=
  { items := List.replicate (idSucc lastID) { assigned := false, Data := default } }

/-- The method `registry.increment`. -/
def registry.increment {V : Type} [Inhabited V] (reg : registry V) : registry V :=
  { items := reg.items ++ [{ assigned := false, Data := default }] }

/-- The method `registry.assign`: the registry after the call and the returned
pair, as the stored value or the error; `none` is an index panic. -/
def registry.assign {V : Type} (reg : registry V) (id : ID) (data : V) :
    Option (registry V × Except GoError V) :=
  if idSucc id > toID reg.items.length then
    some (reg, .error (.errorf "%w (%d)" (.sentinel .ErrNoEntity)))
  else
    match reg.items[id]? with
    | none => none
    | some compWrap =>
      if compWrap.assigned then
        some (reg, .error (.errorf "%w (%d, %s)" (.sentinel .ErrAlreadyAssigned)))
      else
        some ({ items := reg.items.set id { assigned := true, Data := data } }, .ok data)

/-- The call `compWrap.Data.Name()` of `registry.remove`. The only caller of
`remove` is `DeleteEntity`, on a registry taken from the map at the erased type
`registry[Component]`: there `Data` is not a component but the stored bytes of
one read as an interface value, the nil interface for a slot that was never
assigned and no valid interface for a slot whose component was removed, and the
method call panics instead of returning a name. -/
def erasedName {V : Type} (_data : V) : Option String := none

/-- The method `registry.remove`, as `DeleteEntity` calls it: the registry after
the call and the returned error; `none` is a panic, of the index or of the call
of `Name` on the erased `Data`. -/
def registry.remove {V : Type} (reg : registry V) (id : ID) :
    Option (registry V × Option GoError) :=
  if idSucc id > toID reg.items.length then
    some (reg, some (.errorf "%w (%d)" (.sentinel .ErrNoEntity)))
  else
    match reg.items[id]? with
    | none => none
    | some compWrap =>
      if !compWrap.assigned then
        match erasedName compWrap.Data with
        | none => none
        | some _ => some (reg, some (.errorf "%w (%d, %s)" (.sentinel .ErrNotAssigned)))
      else
        some ({ items := reg.items.set id { compWrap with assigned := false } }, none)

/-! ## The world -/

/-- The entity and component part of the struct `World`: the entity table, the
free list and the registries keyed by component name, in the order in which
a `range` over the map visits them. -/
structure World (V : Type) where
  entities : List Entity
  deletedIDs : List ID
  registries : List (String × registry V)
  deriving DecidableEq, Repr

/-- The function `NewWorld`. -/
def NewWorld {V : Type} : World V :=
  { entities := [], deletedIDs := [], registries := [] }

/-- Map lookup `m[key]` with its `ok` flag. -/
def mapGet {V : Type} : List (String × registry V) → String → Option (registry V)
  | [], _ => none
  | (k, r) :: rest, key => if k = key then some r else mapGet rest key

/-- Map store `m[key] = reg`: the entry of `key` is replaced, or added. -/
def mapSet {V : Type} : List (String × registry V) → String → registry V →
    List (String × registry V)
  | [], key, reg => [(key, reg)]
  | (k, r) :: rest, key, reg =>
    if k = key then (k, reg) :: rest else (k, r) :: mapSet rest key reg

/-- The function `getRegistry`. -/
def getRegistry {V : Type} (world : World V) (key : String) : Option (registry V) :=
  mapGet world.registries key

/-- The function `assignRegistry`: the world with the new registry stored, and
that registry. -/
def assignRegistry {V : Type} [Inhabited V] (world : World V) (key : String) :
    World V × registry V :=
  let reg : registry V := newRegistry (toID world.entities.length)
  ({ world with registries := mapSet world.registries key reg }, reg)

/-- The method `World.SpawnEntity`: the world after the call and the returned
entity; `none` is an index panic. -/
def SpawnEntity {V : Type} [Inhabited V] (world : World V) : Option (World V × Entity) :=
  match world.deletedIDs with
  | id :: rest =>
    if id < world.entities.length then
      let entities := world.entities.set id { id := id, deleted := false, tags := [] }
      let world1 : World V := { world with deletedIDs := rest, entities := entities }
      (world1.entities[id]?).map (fun ent => (world1, ent))
    else none
  | [] =>
    let id := toID world.entities.length
    let registries := world.registries.map (fun kr => (kr.1, kr.2.increment))
    let entities := world.entities ++ [{ id := id, deleted := false, tags := [] }]
    let world1 : World V := { world with registries := registries, entities := entities }
    (world1.entities[id]?).map (fun ent => (world1, ent))

/-- The loop of `World.DeleteEntity` over the registries: every registry after
its `remove`, and the join of the errors. -/
def removeAll {V : Type} (id : ID) :
    List (String × registry V) → Option GoError →
    Option (List (String × registry V) × Option GoError)
  | [], regerr => some ([], regerr)
  | (k, reg) :: rest, regerr =>
    match reg.remove id with
    | none => none
    | some (reg1, err) =>
      match removeAll id rest (Join regerr err) with
      | none => none
      | some (rest1, regerr1) => some ((k, reg1) :: rest1, regerr1)

/-- The method `World.DeleteEntity`: the world after the call and the returned
error; `none` is a panic, of the index or inside `remove`. -/
def DeleteEntity {V : Type} (world : World V) (id : ID) :
    Option (World V × Option GoError) :=
  if idSucc id > toID world.entities.length then
    some (world, some (.errorf "%w (%d)" (.sentinel .ErrNoEntity)))
  else
    match world.entities[id]? with
    | none => none
    | some entity =>
      if entity.deleted then
        some (world, some (.errorf "%w (%d)" (.sentinel .ErrEntityDeleted)))
      else
        let entities := world.entities.set id { entity with deleted := true }
        let deletedIDs := world.deletedIDs ++ [id]
        match removeAll id world.registries none with
        | none => none
        | some (registries, regerr) =>
          let world1 : World V :=
            { world with entities := entities, deletedIDs := deletedIDs,
                         registries := registries }
          match regerr with
          | some e =>
            some (world1, some (.errorf2 "%w\n%w" (.sentinel .ErrComponentCleanupFailed) e))
          | none => some (world1, none)

/-- The function `GetComponent` for the component type stored under `key`: the
stored value or the error; `none` is an index panic. -/
def GetComponent {V : Type} (world : World V) (ent : Entity) (key : String) :
    Option (Except GoError V) :=
  if ent.deleted then
    some (.error (.sentinel .ErrEntityDeleted))
  else
    match getRegistry world key with
    | none =>
      some (.error (.errorf "registry for %s not present (%w)" (.sentinel .ErrNotAssigned)))
    | some reg =>
      if ent.id ≥ toID reg.items.length then
        some (.error (.errorf "bad size in registry for %s (%w)" (.sentinel .ErrRegistryBadSize)))
      else
        match reg.items[ent.id]? with
        | none => none
        | some compWrap =>
          if !compWrap.assigned then some (.error (.sentinel .ErrNotAssigned))
          else some (.ok compWrap.Data)

/-- The function `SetComponent` for the component type stored under `key`: the
world after the call and the returned error; `none` is an index panic. The
result of `reg.assign` is dropped, as in the source. -/
def SetComponent {V : Type} [Inhabited V] (world : World V) (ent : Entity) (key : String)
    (comp : V) : Option (World V × Option GoError) :=
  if ent.deleted then
    some (world, some (.sentinel .ErrEntityDeleted))
  else
    let (world1, reg) :=
      match getRegistry world key with
      | some reg => (world, reg)
      | none => assignRegistry world key
    match reg.assign ent.id comp with
    | none => none
    | some (reg1, _) =>
      some ({ world1 with registries := mapSet world1.registries key reg1 }, none)

/-! ## Reachable worlds and their invariant -/

variable {V : Type}

/-- The slots of a registry after slot `id` has been marked unassigned. -/
def clearAt : List (componentWrapper V) → Nat → List (componentWrapper V)
  | [], _ => []
  | cw :: rest, 0 => { cw with assigned := false } :: rest
  | cw :: rest, n + 1 => cw :: clearAt rest n

/-- Every registry of the map after slot `id` has been marked unassigned. -/
def clearRegs (id : Nat) (regs : List (String × registry V)) : List (String × registry V) :=
  regs.map (fun kr => (kr.1, ({ items := clearAt kr.2.items id } : registry V)))

/-- The worlds the exported operations can build: from `NewWorld`, by
`SpawnEntity`, by `DeleteEntity` on any `uint64` identity, and by `SetComponent`
on a handle whose identity has been spawned, each call having returned. -/
inductive Reachable [Inhabited V] : World V → Prop
  | new : Reachable NewWorld
  | spawn {w w1 : World V} {e : Entity} :
      Reachable w → SpawnEntity w = some (w1, e) → Reachable w1
  | delete {w w1 : World V} {id : ID} {r : Option GoError} :
      Reachable w → id < 2 ^ 64 → DeleteEntity w id = some (w1, r) → Reachable w1
  | set {w w1 : World V} {ent : Entity} {key : String} {c : V} {r : Option GoError} :
      Reachable w → ent.id < w.entities.length →
      SetComponent w ent key c = some (w1, r) → Reachable w1

/-- The entity table respects the bound of a Go slice length (a non-negative
`int`). -/
def Fits (w : World V) : Prop := w.entities.length < 2 ^ 63

/-- The invariant of the entity table, the free list and the registries. -/
structure WF (w : World V) : Prop where
  ids : ∀ (i : Nat) (ent : Entity), w.entities[i]? = some ent → ent.id = i
  nodup : w.deletedIDs.Nodup
  free : ∀ id : Nat,
    id ∈ w.deletedIDs ↔ ∃ ent, w.entities[id]? = some ent ∧ ent.deleted = true
  regs : ∀ kr ∈ w.registries,
    w.entities.length ≤ kr.2.items.length ∧ kr.2.items.length ≤ w.entities.length + 1

/-- A handle as `SpawnEntity` returns it: a copy of a record of the table, whose
own `deleted` field is false. -/
def IsHandle (w : World V) (e : Entity) : Prop :=
  e.id < w.entities.length ∧ e.deleted = false

/-- The record of the identity in the world is not marked deleted. -/
def Live (w : World V) (id : ID) : Prop :=
  ∃ ent, w.entities[id]? = some ent ∧ ent.deleted = false

/-! ## The worlds of `TestEntity` -/

/-- The handle returned by the first `SpawnEntity` of `TestEntity`. -/
def firstHandle : Entity := { id := 0, deleted := false, tags := [] }

/-- The world of `TestEntity` after its first `SpawnEntity`. -/
def worldSpawned : World String :=
  { entities := [firstHandle], deletedIDs := [], registries := [] }

/-- The world of `TestEntity` after `SetComponent(ent, testComp{msg: "hello"})`. -/
def worldAssigned : World String :=
  { entities := [firstHandle], deletedIDs := [],
    registries := [("testComp", { items := [{ assigned := true, Data := "hello" },
                                            { assigned := false, Data := "" }] })] }

/-- The world of `TestEntity` after `DeleteEntity(ctx, ent.id)`. -/
def worldDeleted : World String :=
  { entities := [{ id := 0, deleted := true, tags := [] }], deletedIDs := [0],
    registries := [("testComp", { items := [{ assigned := false, Data := "hello" },
                                            { assigned := false, Data := "" }] })] }

/-- A world after two spawns. -/
def worldTwo : World String :=
  { entities := [{ id := 0, deleted := false, tags := [] },
                 { id := 1, deleted := false, tags := [] }],
    deletedIDs := [], registries := [] }

/-- The world after two spawns and `DeleteEntity(ctx, 0)`: identity 1 is live
and identity 0 waits in the free list. -/
def worldTwoOneFreed : World String :=
  { entities := [{ id := 0, deleted := true, tags := [] },
                 { id := 1, deleted := false, tags := [] }],
    deletedIDs := [0], registries := [] }

/-- The world after two spawns and `SetComponent(ent0, testComp{msg: "hello"})`:
identity 1 has no `testComp`. -/
def worldTwoAssigned : World String :=
  { entities := [{ id := 0, deleted := false, tags := [] },
                 { id := 1, deleted := false, tags := [] }],
    deletedIDs := [],
    registries := [("testComp", { items := [{ assigned := true, Data := "hello" },
                                            { assigned := false, Data := "" },
                                            { assigned := false, Data := "" }] })] }

/-! ## Phases, actions and systems -/

/-- The type `Phase` (`uint`, 64 bits wide). -/
abbrev Phase := Nat

/-- The constant `ON_START`. -/
def ON_START : Phase := 0

/-- The constant `PRE_FRAME`. -/
def PRE_FRAME : Phase := 100

/-- The constant `ON_UPDATE`. -/
def ON_UPDATE : Phase := 500

/-- The constant `POST_FRAME`. -/
def POST_FRAME : Phase := 1000

/-- The constant `ON_END` (`math.MaxUint`). -/
def ON_END : Phase := 2 ^ 64 - 1

/-- The part of the struct `World` that a running action, system or operation
works on: the state payload, the entity and component part, and the quit
flag. -/
structure Game (S V : Type) where
  State : S
  store : World V
  shouldQuit : Bool
  deriving DecidableEq, Repr

/-- The method `World.Quit`. -/
def Quit {S V : Type} (world : Game S V) : Game S V :=
  { world with shouldQuit := true }

/-- The type `Action`: the world after the call and the returned error. -/
abbrev Action (S V : Type) := Game S V → Game S V × Option GoError

/-- The type `System`; the sequence of entities is a list. -/
abbrev System (S V : Type) := Game S V → List Entity → Game S V × Option GoError

/-- The type `Operation`. -/
abbrev Operation (S V D : Type) := Game S V → D → Game S V × Option GoError

/-- The loop of the system built by `PipedSystem`: the world and the joined
error after the items, and the log of the calls made to the operation, each
with the item it was given and the error it returned. The log is not part of
the Go state. -/
def pipedLoop {S V D : Type} (op : Operation S V D) :
    List D → Game S V → Option GoError →
    Game S V × Option GoError × List (D × Option GoError)
  | [], world, err => (world, err, [])
  | data :: rest, world, err =>
    let r := op world data
    let out := pipedLoop op rest r.1 (Join err r.2)
    (out.1, out.2.1, (data, r.2) :: out.2.2)

/-- The function `PipedSystem`; the pipe maps the list of entities to the list
of items. -/
def PipedSystem {S V D : Type} (sysPipe : List Entity → List D) (op : Operation S V D) :
    System S V :=
  fun world entSeq =>
    let out := pipedLoop op (sysPipe entSeq) world none
    (out.1, out.2.1)

/-- The registration tables of the struct `World`: `phases`, `actions` and
`systems`; a map from phases to slices is a function that is `[]` where the
map has no entry. The tables do not change while `Run` is in progress. -/
structure Schedule (S V : Type) where
  phases : List Phase
  actions : Phase → List (Action S V)
  systems : Phase → List (System S V)

/-- The tables made by `NewWorld`. -/
def NewSchedule {S V : Type} : Schedule S V :=
  { phases := [], actions := fun _ => [], systems := fun _ => [] }

/-- The method `World.registerPhase`; `slices.Sort` is insertion sort. -/
def registerPhase {S V : Type} (world : Schedule S V) (phase : Phase) : Schedule S V :=
  if phase ∈ world.phases then world
  else { world with phases := (world.phases ++ [phase]).insertionSort (fun a b => a ≤ b) }

/-- The method `World.System`. -/
def registerSystem {S V : Type} (world : Schedule S V) (phase : Phase) (system : System S V) :
    Schedule S V :=
  let world1 := registerPhase world phase
  { world1 with
    systems := fun p => if p = phase then world1.systems phase ++ [system] else world1.systems p }

/-- The method `World.Action`. -/
def registerAction {S V : Type} (world : Schedule S V) (phase : Phase) (action : Action S V) :
    Schedule S V :=
  let world1 := registerPhase world phase
  { world1 with
    actions := fun p => if p = phase then world1.actions phase ++ [action] else world1.actions p }

/-- A call of `World.System` or of `World.Action`. -/
inductive Registration (S V : Type) where
  | system (phase : Phase) (system : System S V)
  | action (phase : Phase) (action : Action S V)

/-- The phase a registration names. -/
def Registration.phase {S V : Type} : Registration S V → Phase
  | .system p _ => p
  | .action p _ => p

/-- The tables after one registration. -/
def register {S V : Type} (world : Schedule S V) : Registration S V → Schedule S V
  | .system p s => registerSystem world p s
  | .action p a => registerAction world p a

/-- The tables after a sequence of registrations on a new world. -/
def registerAll {S V : Type} (regs : List (Registration S V)) : Schedule S V :=
  regs.foldl register NewSchedule

/-! ## Dispatch and the run loop -/

/-- What `Run` did, in order: a call of `dispatchPhase`, a call of an action
(its position among the actions of the phase, and what it returned), and the
launch of the systems of a phase with the result of `eg.Wait()`. The log is not
part of the Go state. -/
inductive Event where
  | dispatch (phase : Phase)
  | action (phase : Phase) (index : Nat) (ret : Option GoError)
  | systems (phase : Phase) (ret : Option GoError)
  deriving DecidableEq, Repr

/-- The outcome of one concurrent stage, `eg.Go` on every system of the phase
followed by `eg.Wait()`: the world left behind and the error returned by
`Wait`. How the goroutines interleave is not modelled; the statements about
`dispatchPhase` and `Run` hold for every such outcome. -/
abbrev FanOut (S V : Type) := List (System S V) → Game S V → Game S V × Option GoError

/-- The loop of `dispatchPhase` over the actions of the phase, from position
`index` on. -/
def runActions {S V : Type} (phase : Phase) :
    List (Action S V) → Nat → Game S V → Option GoError →
    Game S V × Option GoError × List Event
  | [], _, world, actionErr => (world, actionErr, [])
  | action :: rest, index, world, actionErr =>
    let r := action world
    let out := runActions phase rest (index + 1) r.1 (Join actionErr r.2)
    (out.1, out.2.1, Event.action phase index r.2 :: out.2.2)

/-- The method `World.dispatchPhase`. -/
def dispatchPhase {S V : Type} (sched : Schedule S V) (fanOut : FanOut S V) (phase : Phase)
    (world : Game S V) : Game S V × Option GoError × List Event :=
  let acts := runActions phase (sched.actions phase) 0 world none
  match acts.2.1 with
  | some actionErr => (acts.1, some actionErr, Event.dispatch phase :: acts.2.2)
  | none =>
    let r := fanOut (sched.systems phase) acts.1
    (r.1, r.2, Event.dispatch phase :: (acts.2.2 ++ [Event.systems phase r.2]))

/-- The loop of `Run` over `loopPhases`: the error is the one `Run` returns
from inside the loop, nil when the sweep went through. -/
def sweep {S V : Type} (sched : Schedule S V) (fanOut : FanOut S V) :
    List Phase → Game S V → Game S V × Option GoError × List Event
  | [], world => (world, none, [])
  | phase :: rest, world =>
    let d := dispatchPhase sched fanOut phase world
    if Is d.2.1 .ErrFatal then (d.1, d.2.1, d.2.2)
    else
      let out := sweep sched fanOut rest d.1
      (out.1, out.2.1, d.2.2 ++ out.2.2)

/-- The loop `for !world.shouldQuit` of `Run`, for at most `fuel` sweeps; `none`
when the fuel runs out. The error is the one `Run` returns from inside the
loop, nil when the loop ended because of the quit flag. -/
def gameLoop {S V : Type} (sched : Schedule S V) (fanOut : FanOut S V)
    (loopPhases : List Phase) : Nat → Game S V → Option (Game S V × Option GoError × List Event)
  | 0, world => if world.shouldQuit then some (world, none, []) else none
  | fuel + 1, world =>
    if world.shouldQuit then some (world, none, [])
    else
      let s := sweep sched fanOut loopPhases world
      match s.2.1 with
      | some err => some (s.1, some err, s.2.2)
      | none =>
        match gameLoop sched fanOut loopPhases fuel s.1 with
        | none => none
        | some out => some (out.1, out.2.1, s.2.2 ++ out.2.2)

/-- The phases of the loop of `Run`. -/
def loopPhases {S V : Type} (sched : Schedule S V) : List Phase :=
  sched.phases.filter (fun p => p != ON_START && p != ON_END)

/-- The method `World.Run`, for at most `fuel` sweeps of the loop. -/
def Run {S V : Type} (sched : Schedule S V) (fanOut : FanOut S V) (fuel : Nat)
    (world : Game S V) : Option (Game S V × Option GoError × List Event) :=
  let start := dispatchPhase sched fanOut ON_START world
  if Is start.2.1 .ErrFatal then some (start.1, start.2.1, start.2.2)
  else
    match gameLoop sched fanOut (loopPhases sched) fuel start.1 with
    | none => none
    | some (world1, some err, log) => some (world1, some err, start.2.2 ++ log)
    | some (world1, none, log) =>
      let fin := dispatchPhase sched fanOut ON_END world1
      if Is fin.2.1 .ErrFatal then (some (fin.1, fin.2.1, start.2.2 ++ log ++ fin.2.2))
      else some (fin.1, none, start.2.2 ++ log ++ fin.2.2)

/-- The phase an event belongs to. -/
def Event.phase : Event → Phase
  | .dispatch p => p
  | .action p _ _ => p
  | .systems p _ => p

/-- What the actions return when they are called one after the other, each on
the world left by the one before. -/
def returnsOf {S V : Type} : List (Action S V) → Game S V → List (Option GoError)
  | [], _ => []
  | action :: rest, world => (action world).2 :: returnsOf rest (action world).1

/-- The phases dispatched, in order, according to a log. -/
def dispatched : List Event → List Phase
  | [] => []
  | Event.dispatch p :: rest => p :: dispatched rest
  | _ :: rest => dispatched rest

/-- One outcome of the concurrent stage: the systems run one after the other in
the order of registration, each over the entities that are not deleted, and
`Wait` returns the first error. -/
def inOrder {S V : Type} : FanOut S V
  | [], world => (world, none)
  | sys :: rest, world =>
    let r := sys world (world.store.entities.filter (fun e => !e.deleted))
    let out := inOrder rest r.1
    (out.1, match r.2 with
            | some err => some err
            | none => out.2)

/-! ## Actions, operations and schedules used as examples -/

/-- The world of `TestLifecycle` when `Run` starts: one entity with a
`testComp`. -/
def gameStart : Game Unit String :=
  { State := (), store := worldAssigned, shouldQuit := false }

/-- An action that returns `errors.Join(ErrFatal, ErrNotAssigned)`. -/
def fatalAction : Action Unit String :=
  fun world => (world, Join (some (.sentinel .ErrFatal)) (some (.sentinel .ErrNotAssigned)))

/-- An action that returns `ErrNotAssigned`, an error that is not fatal. -/
def failingAction : Action Unit String :=
  fun world => (world, some (.sentinel .ErrNotAssigned))

/-- An action that calls `world.Quit(ctx)` and returns nil. -/
def quitAction : Action Unit String :=
  fun world => (Quit world, none)

/-- An action that returns nil. -/
def idleAction : Action Unit String :=
  fun world => (world, none)

/-- An operation on entities that fails, fatally, on identity 1 only. -/
def pickyOperation : Operation Unit String Entity :=
  fun world ent =>
    if ent.id = 1 then (world, Join (some (.sentinel .ErrFatal)) (some (.sentinel .ErrNotAssigned)))
    else (world, none)

/-- A fatal action at `ON_START`, a system at `ON_UPDATE` and an action at
`ON_END`. -/
def schedFatalStart : Schedule Unit String :=
  registerAll [.action ON_START fatalAction,
               .system ON_UPDATE (PipedSystem (fun ents => ents) pickyOperation),
               .action ON_END idleAction]

/-- A failing, non-fatal action at `ON_END` and nothing else. -/
def schedFailingEnd : Schedule Unit String :=
  registerAll [.action ON_END failingAction]

/-- Registrations out of order: `ON_UPDATE` first, then a fatal action at
`PRE_FRAME`. -/
def schedFatalFrame : Schedule Unit String :=
  registerAll [.action ON_UPDATE idleAction, .action PRE_FRAME fatalAction]

/-- A call of `Quit` and a fatal error, both during `ON_START`. -/
def schedQuitThenFatal : Schedule Unit String :=
  registerAll [.action ON_START quitAction, .action ON_START fatalAction,
               .action ON_END idleAction]

/-- A call of `Quit` during `PRE_FRAME`, with `ON_UPDATE` and `ON_END` after
it. -/
def schedQuitInSweep : Schedule Unit String :=
  registerAll [.action ON_UPDATE idleAction, .action PRE_FRAME quitAction,
               .action ON_END idleAction]

/-! ## Lemmas on identities, registries and the registry map -/

theorem toID_of_lt {n : Nat} (h : n < 2 ^ 64) : toID n = n := Nat.mod_eq_of_lt h

theorem idSucc_of_lt {id : Nat} (h : id + 1 < 2 ^ 64) : idSucc id = id + 1 := Nat.mod_eq_of_lt h

theorem length_clearAt (l : List (componentWrapper V)) (n : Nat) :
    (clearAt l n).length = l.length := by
  induction l generalizing n with
  | nil => rfl
  | cons cw rest ih => cases n <;> simp [clearAt, ih]

theorem getElem?_clearAt_self (l : List (componentWrapper V)) (n : Nat) :
    (clearAt l n)[n]? = (l[n]?).map (fun cw => { cw with assigned := false }) := by
  induction l generalizing n with
  | nil => rfl
  | cons cw rest ih => cases n <;> simp [clearAt, ih]

theorem getElem?_clearAt_ne (l : List (componentWrapper V)) {n j : Nat} (h : j ≠ n) :
    (clearAt l n)[j]? = l[j]? := by
  induction l generalizing n j with
  | nil => rfl
  | cons cw rest ih =>
    cases n with
    | zero => cases j with
      | zero => exact absurd rfl h
      | succ j => simp [clearAt]
    | succ n => cases j with
      | zero => simp [clearAt]
      | succ j => simp [clearAt]; exact ih (fun e => h (by rw [e]))

theorem set_eq_clearAt (l : List (componentWrapper V)) (n : Nat) (cw : componentWrapper V)
    (h : l[n]? = some cw) : l.set n { cw with assigned := false } = clearAt l n := by
  induction l generalizing n with
  | nil => simp at h
  | cons c rest ih =>
    cases n with
    | zero => simp at h; subst h; simp [clearAt]
    | succ n => simp at h; simp [clearAt, ih n h]

theorem guard_of_lt {id len : Nat} (h : id < len) (hlen : len < 2 ^ 64) :
    ¬ idSucc id > toID len := by
  unfold idSucc toID
  rw [Nat.mod_eq_of_lt hlen, Nat.mod_eq_of_lt (by omega)]
  intro hgt
  have hgt1 : len < id + 1 := hgt
  omega

/-- Within the slice, `registry.remove` clears an assigned slot and returns nil,
and does not return on an unassigned slot. -/
theorem remove_of_lt (reg : registry V) (id : Nat) (cw : componentWrapper V)
    (hlen : reg.items.length < 2 ^ 64) (h : reg.items[id]? = some cw) :
    reg.remove id =
      if cw.assigned then some ({ items := clearAt reg.items id }, none) else none := by
  have hid : id < reg.items.length := by
    rcases Nat.lt_or_ge id reg.items.length with h1 | h1
    · exact h1
    · rw [List.getElem?_eq_none h1] at h; cases h
  have h1 : ¬ idSucc id > toID reg.items.length := guard_of_lt hid hlen
  unfold registry.remove
  rw [if_neg h1, h]
  cases ha : cw.assigned
  · simp [ha, erasedName]
  · simp [ha, set_eq_clearAt _ _ _ h]

theorem lt_of_getElem?_eq_some {α : Type} {l : List α} {i : Nat} {a : α}
    (h : l[i]? = some a) : i < l.length := by
  rcases Nat.lt_or_ge i l.length with h1 | h1
  · exact h1
  · rw [List.getElem?_eq_none h1] at h; cases h

theorem assign_of_lt (reg : registry V) (id : Nat) (data : V) (cw : componentWrapper V)
    (hlen : reg.items.length < 2 ^ 64) (h : reg.items[id]? = some cw) :
    reg.assign id data =
      if cw.assigned then
        some (reg, .error (.errorf "%w (%d, %s)" (.sentinel .ErrAlreadyAssigned)))
      else
        some ({ items := reg.items.set id { assigned := true, Data := data } }, .ok data) := by
  have h1 : ¬ idSucc id > toID reg.items.length := guard_of_lt (lt_of_getElem?_eq_some h) hlen
  unfold registry.assign
  rw [if_neg h1, h]

theorem removeAll_of_assigned (id : Nat) (regs : List (String × registry V))
    (h : ∀ kr ∈ regs, id < kr.2.items.length ∧ kr.2.items.length < 2 ^ 64)
    (hall : ∀ kr ∈ regs, ∃ cw, kr.2.items[id]? = some cw ∧ cw.assigned = true) :
    removeAll id regs none = some (clearRegs id regs, none) := by
  induction regs with
  | nil => rfl
  | cons kr rest ih =>
    obtain ⟨k, reg⟩ := kr
    have hk := h (k, reg) (List.mem_cons_self _ _)
    obtain ⟨cw, hcw, ha⟩ := hall (k, reg) (List.mem_cons_self _ _)
    have hrem := remove_of_lt reg id cw hk.2 hcw
    rw [ha] at hrem
    have hrec := ih (fun kr hkr => h kr (List.mem_cons_of_mem _ hkr))
      (fun kr hkr => hall kr (List.mem_cons_of_mem _ hkr))
    simp [removeAll, hrem, Join, hrec, clearRegs]

theorem removeAll_some_inv (id : Nat) (regs : List (String × registry V))
    (acc : Option GoError)
    (h : ∀ kr ∈ regs, id < kr.2.items.length ∧ kr.2.items.length < 2 ^ 64)
    (regs1 : List (String × registry V)) (err : Option GoError)
    (hsome : removeAll id regs acc = some (regs1, err)) :
    ∀ kr ∈ regs, ∃ cw, kr.2.items[id]? = some cw ∧ cw.assigned = true := by
  induction regs generalizing acc regs1 err with
  | nil => intro kr hkr; cases hkr
  | cons kr rest ih =>
    obtain ⟨k, reg⟩ := kr
    have hk := h (k, reg) (List.mem_cons_self _ _)
    have hrest : ∀ kr ∈ rest, id < kr.2.items.length ∧ kr.2.items.length < 2 ^ 64 :=
      fun kr hkr => h kr (List.mem_cons_of_mem _ hkr)
    obtain ⟨cw, hcw⟩ : ∃ cw, reg.items[id]? = some cw :=
      ⟨_, List.getElem?_eq_getElem hk.1⟩
    have hrem := remove_of_lt reg id cw hk.2 hcw
    cases ha : cw.assigned with
    | false =>
      rw [ha] at hrem
      simp [removeAll, hrem] at hsome
    | true =>
      rw [ha] at hrem
      cases hrec : removeAll id rest (Join acc none) with
      | none => simp [removeAll, hrem, hrec] at hsome
      | some out =>
        have hrest1 := ih (Join acc none) hrest out.1 out.2 hrec
        intro kr hkr
        rcases List.mem_cons.1 hkr with rfl | hkr
        · exact ⟨cw, hcw, ha⟩
        · exact hrest1 kr hkr

theorem mapGet_mem {m : List (String × registry V)} {key : String} {reg : registry V}
    (h : mapGet m key = some reg) : (key, reg) ∈ m := by
  induction m with
  | nil => simp [mapGet] at h
  | cons kr rest ih =>
    obtain ⟨k, r⟩ := kr
    unfold mapGet at h
    split at h
    · rename_i hk
      cases h
      subst hk
      exact List.mem_cons_self _ _
    · exact List.mem_cons_of_mem _ (ih h)

theorem mapGet_mapSet_self (m : List (String × registry V)) (key : String) (reg : registry V) :
    mapGet (mapSet m key reg) key = some reg := by
  induction m with
  | nil => simp [mapSet, mapGet]
  | cons kr rest ih =>
    obtain ⟨k, r⟩ := kr
    by_cases hk : k = key
    · simp [mapSet, mapGet, hk]
    · simp [mapSet, mapGet, hk, ih]

theorem mapGet_mapSet_ne (m : List (String × registry V)) {key key1 : String}
    (reg : registry V) (h : key1 ≠ key) :
    mapGet (mapSet m key reg) key1 = mapGet m key1 := by
  induction m with
  | nil => simp [mapSet, mapGet, Ne.symm h]
  | cons kr rest ih =>
    obtain ⟨k, r⟩ := kr
    by_cases hk : k = key
    · subst hk
      simp [mapSet, mapGet, Ne.symm h]
    · by_cases hk1 : k = key1
      · subst hk1
        simp [mapSet, mapGet, hk]
      · simp [mapSet, mapGet, hk, hk1, ih]

theorem mapSet_mapSet (m : List (String × registry V)) (key : String) (a b : registry V) :
    mapSet (mapSet m key a) key b = mapSet m key b := by
  induction m with
  | nil => simp [mapSet]
  | cons kr rest ih =>
    obtain ⟨k, r⟩ := kr
    by_cases hk : k = key
    · simp [mapSet, hk]
    · simp [mapSet, hk, ih]

theorem mem_mapSet {m : List (String × registry V)} {key : String} {reg : registry V}
    {kr : String × registry V} (h : kr ∈ mapSet m key reg) : kr = (key, reg) ∨ kr ∈ m := by
  induction m with
  | nil => simp [mapSet] at h; exact Or.inl h
  | cons kr0 rest ih =>
    obtain ⟨k, r⟩ := kr0
    by_cases hk : k = key
    · simp [mapSet, hk] at h
      rcases h with h | h
      · exact Or.inl h
      · exact Or.inr (List.mem_cons_of_mem _ h)
    · simp [mapSet, hk] at h
      rcases h with h | h
      · exact Or.inr (by rw [h]; exact List.mem_cons_self _ _)
      · rcases ih h with h1 | h1
        · exact Or.inl h1
        · exact Or.inr (List.mem_cons_of_mem _ h1)

theorem mapGet_map (m : List (String × registry V)) (f : registry V → registry V)
    (key : String) :
    mapGet (m.map (fun kr => (kr.1, f kr.2))) key = (mapGet m key).map f := by
  induction m with
  | nil => rfl
  | cons kr rest ih =>
    obtain ⟨k, r⟩ := kr
    by_cases hk : k = key
    · simp [mapGet, hk]
    · simp [mapGet, hk, ih]

theorem mapGet_clearRegs (m : List (String × registry V)) (id : Nat) (key : String) :
    mapGet (clearRegs id m) key =
      (mapGet m key).map (fun r => ({ items := clearAt r.items id } : registry V)) := by
  unfold clearRegs
  exact mapGet_map m (fun r => ({ items := clearAt r.items id } : registry V)) key

/-! ## The operations in closed form -/

theorem SpawnEntity_fresh [Inhabited V] (w : World V) (hfree : w.deletedIDs = [])
    (hfit : Fits w) :
    SpawnEntity w = some
      ({ w with
          registries := w.registries.map (fun kr => (kr.1, kr.2.increment)),
          entities := w.entities ++
            [{ id := w.entities.length, deleted := false, tags := [] }] },
        { id := w.entities.length, deleted := false, tags := [] }) := by
  have h64 : w.entities.length < 2 ^ 64 := by unfold Fits at hfit; omega
  unfold SpawnEntity
  rw [hfree]
  simp [toID_of_lt h64]

theorem SpawnEntity_reuse [Inhabited V] (w : World V) (id : Nat) (rest : List ID)
    (hfree : w.deletedIDs = id :: rest) (hid : id < w.entities.length) :
    SpawnEntity w = some
      ({ w with
          deletedIDs := rest,
          entities := w.entities.set id { id := id, deleted := false, tags := [] } },
        { id := id, deleted := false, tags := [] }) := by
  unfold SpawnEntity
  rw [hfree]
  simp [hid]

/-- On a live identity that has a component assigned in every registry,
`DeleteEntity` returns nil, having marked the record, queued the identity and
cleared its slot in every registry. -/
theorem DeleteEntity_live_assigned (w : World V) (id : Nat) (ent : Entity)
    (hent : w.entities[id]? = some ent) (hlive : ent.deleted = false) (hfit : Fits w)
    (hregs : ∀ kr ∈ w.registries,
      w.entities.length ≤ kr.2.items.length ∧ kr.2.items.length ≤ w.entities.length + 1)
    (hall : ∀ kr ∈ w.registries, ∃ cw, kr.2.items[id]? = some cw ∧ cw.assigned = true) :
    DeleteEntity w id = some
        ({ entities := w.entities.set id { ent with deleted := true },
           deletedIDs := w.deletedIDs ++ [id],
           registries := clearRegs id w.registries }, none) := by
  have hid : id < w.entities.length := lt_of_getElem?_eq_some hent
  have h63 : w.entities.length < 2 ^ 63 := hfit
  have h1 : ¬ idSucc id > toID w.entities.length := guard_of_lt hid (by omega)
  have hr : ∀ kr ∈ w.registries, id < kr.2.items.length ∧ kr.2.items.length < 2 ^ 64 := by
    intro kr hkr
    have := hregs kr hkr
    omega
  have h2 := removeAll_of_assigned id w.registries hr hall
  unfold DeleteEntity
  rw [if_neg h1, hent]
  simp only [hlive, h2]
  simp

/-- On a live identity, a `DeleteEntity` that returns has found a component
assigned in every registry, and has returned nil. -/
theorem DeleteEntity_live_inv (w : World V) (id : Nat) (ent : Entity)
    (hent : w.entities[id]? = some ent) (hlive : ent.deleted = false) (hfit : Fits w)
    (hregs : ∀ kr ∈ w.registries,
      w.entities.length ≤ kr.2.items.length ∧ kr.2.items.length ≤ w.entities.length + 1)
    {w1 : World V} {r : Option GoError} (h : DeleteEntity w id = some (w1, r)) :
    (∀ kr ∈ w.registries, ∃ cw, kr.2.items[id]? = some cw ∧ cw.assigned = true) ∧
    w1 = { entities := w.entities.set id { ent with deleted := true },
           deletedIDs := w.deletedIDs ++ [id],
           registries := clearRegs id w.registries } ∧
    r = none := by
  have hid : id < w.entities.length := lt_of_getElem?_eq_some hent
  have h63 : w.entities.length < 2 ^ 63 := hfit
  have h1 : ¬ idSucc id > toID w.entities.length := guard_of_lt hid (by omega)
  have hr : ∀ kr ∈ w.registries, id < kr.2.items.length ∧ kr.2.items.length < 2 ^ 64 := by
    intro kr hkr
    have := hregs kr hkr
    omega
  have hall : ∀ kr ∈ w.registries, ∃ cw, kr.2.items[id]? = some cw ∧ cw.assigned = true := by
    cases hrem : removeAll id w.registries none with
    | none =>
      unfold DeleteEntity at h
      rw [if_neg h1, hent] at h
      simp [hlive, hrem] at h
    | some out => exact removeAll_some_inv id w.registries none hr out.1 out.2 hrem
  have hclosed := DeleteEntity_live_assigned w id ent hent hlive hfit hregs hall
  rw [hclosed] at h
  simp only [Option.some.injEq, Prod.mk.injEq] at h
  exact ⟨hall, h.1.symm, h.2.symm⟩

theorem newRegistry_items [Inhabited V] (n : Nat) (h : n < 2 ^ 63) :
    (newRegistry (toID n) : registry V).items =
      List.replicate (n + 1) { assigned := false, Data := default } := by
  unfold newRegistry
  rw [toID_of_lt (by omega), idSucc_of_lt (by omega)]

theorem SetComponent_handle [Inhabited V] (w : World V) (ent : Entity) (key : String) (c : V)
    (hd : ent.deleted = false) (hid : ent.id < w.entities.length) (hfit : Fits w)
    (hregs : ∀ kr ∈ w.registries,
      w.entities.length ≤ kr.2.items.length ∧ kr.2.items.length ≤ w.entities.length + 1) :
    ∃ reg0 cw,
      reg0 = (getRegistry w key).getD (newRegistry (toID w.entities.length)) ∧
      reg0.items[ent.id]? = some cw ∧
      w.entities.length ≤ reg0.items.length ∧ reg0.items.length ≤ w.entities.length + 1 ∧
      (getRegistry w key = none → cw.assigned = false) ∧
      SetComponent w ent key c = some
        ({ w with
            registries := mapSet w.registries key
              (if cw.assigned then reg0
               else { items := reg0.items.set ent.id { assigned := true, Data := c } }) },
          none) := by
  have h63 : w.entities.length < 2 ^ 63 := hfit
  have hid1 : (ent.id : Nat) < w.entities.length := hid
  cases hg : getRegistry w key with
  | some reg =>
    have hmem := hregs _ (mapGet_mem hg)
    simp only at hmem
    have hlt : (ent.id : Nat) < reg.items.length := by
      have := hmem.1
      simp only [ID] at *
      omega
    obtain ⟨cw, hcw⟩ : ∃ cw, reg.items[ent.id]? = some cw :=
      ⟨_, List.getElem?_eq_getElem hlt⟩
    have hlen : reg.items.length < 2 ^ 64 := by
      have := hmem.2
      omega
    refine ⟨reg, cw, by simp, hcw, hmem.1, hmem.2, by simp, ?_⟩
    unfold SetComponent
    rw [if_neg (by simp [hd])]
    simp only [hg, assign_of_lt reg ent.id c _ hlen hcw]
    cases ha : cw.assigned <;> simp
  | none =>
    have hitems := newRegistry_items (V := V) w.entities.length h63
    have hlt : (ent.id : Nat) < (newRegistry (toID w.entities.length) : registry V).items.length := by
      rw [hitems, List.length_replicate]
      simp only [ID] at *
      omega
    have hcw : (newRegistry (toID w.entities.length) : registry V).items[ent.id]? =
        some { assigned := false, Data := default } := by
      rw [hitems, List.getElem?_replicate, if_pos (Nat.lt_succ_of_lt hid1)]
    have hlen : (newRegistry (toID w.entities.length) : registry V).items.length < 2 ^ 64 := by
      rw [hitems, List.length_replicate]
      omega
    refine ⟨newRegistry (toID w.entities.length), { assigned := false, Data := default },
      by simp, hcw, ?_, ?_, by simp, ?_⟩
    · rw [hitems, List.length_replicate]; omega
    · rw [hitems, List.length_replicate]
    · unfold SetComponent
      rw [if_neg (by simp [hd])]
      simp only [hg, assignRegistry, assign_of_lt _ ent.id c _ hlen hcw]
      simp [mapSet_mapSet]

/-! ## The invariant is kept by every operation -/

theorem WF_NewWorld : WF (NewWorld : World V) where
  ids := by intro i ent h; simp [NewWorld] at h
  nodup := by simp [NewWorld]
  free := by intro id; simp [NewWorld]
  regs := by intro kr h; simp [NewWorld] at h

theorem WF_spawn_reuse (w : World V) (hwf : WF w) (id : Nat) (rest : List ID)
    (hfree : w.deletedIDs = id :: rest) (hid : id < w.entities.length) :
    WF ({ w with
          deletedIDs := rest,
          entities := w.entities.set id { id := id, deleted := false, tags := [] } }) where
  ids := by
    intro i ent h
    simp only [List.getElem?_set] at h
    split at h
    · rename_i hi
      cases h
      exact hi
    · exact hwf.ids i ent h
  nodup := by
    have := hwf.nodup
    rw [hfree] at this
    exact (List.nodup_cons.1 this).2
  free := by
    intro j
    have hnd := hwf.nodup
    rw [hfree] at hnd
    have hj := hwf.free j
    rw [hfree] at hj
    simp only [List.getElem?_set]
    by_cases hji : id = j
    · subst hji
      rw [if_pos rfl, if_pos hid]
      constructor
      · intro hmem
        exact absurd hmem (List.nodup_cons.1 hnd).1
      · rintro ⟨ent, he, hdel⟩
        cases he
        cases hdel
    · rw [if_neg hji]
      rw [← hj]
      simp [List.mem_cons, Ne.symm hji]
  regs := by
    intro kr hkr
    simpa using hwf.regs kr hkr

theorem WF_spawn_fresh [Inhabited V] (w : World V) (hwf : WF w)
    (hfree : w.deletedIDs = []) :
    WF ({ w with
          registries := w.registries.map (fun kr => (kr.1, kr.2.increment)),
          entities := w.entities ++
            [{ id := w.entities.length, deleted := false, tags := [] }] }) where
  ids := by
    intro i ent h
    simp only [List.getElem?_append] at h
    split at h
    · exact hwf.ids i ent h
    · rename_i hi
      have hi1 : w.entities.length ≤ i := Nat.le_of_not_lt hi
      rcases Nat.eq_or_lt_of_le hi1 with heq | hlt
      · rw [← heq] at h
        simp at h
        rw [← h, ← heq]
      · have : ([({ id := w.entities.length, deleted := false, tags := [] } : Entity)])[i - w.entities.length]? = none := by
          apply List.getElem?_eq_none
          simp only [List.length_singleton]
          omega
        rw [this] at h
        cases h
  nodup := by
    simp [hfree]
  free := by
    intro j
    have hj := hwf.free j
    rw [hfree] at hj
    simp only [hfree, List.not_mem_nil, false_iff]
    rintro ⟨ent, he, hdel⟩
    simp only [List.getElem?_append] at he
    split at he
    · exact absurd (hj.2 ⟨ent, he, hdel⟩) (List.not_mem_nil j)
    · rename_i hi
      have hi1 : w.entities.length ≤ j := Nat.le_of_not_lt hi
      rcases Nat.eq_or_lt_of_le hi1 with heq | hlt
      · rw [← heq] at he
        simp at he
        rw [← he] at hdel
        cases hdel
      · have : ([({ id := w.entities.length, deleted := false, tags := [] } : Entity)])[j - w.entities.length]? = none := by
          apply List.getElem?_eq_none
          simp only [List.length_singleton]
          omega
        rw [this] at he
        cases he
  regs := by
    intro kr hkr
    simp only [List.mem_map] at hkr
    obtain ⟨kr0, hkr0, rfl⟩ := hkr
    have := hwf.regs kr0 hkr0
    simp only [registry.increment, List.length_append, List.length_singleton]
    omega

theorem WF_delete_live (w : World V) (hwf : WF w) (id : Nat) (ent : Entity)
    (hent : w.entities[id]? = some ent) (hlive : ent.deleted = false) :
    WF ({ entities := w.entities.set id { ent with deleted := true },
          deletedIDs := w.deletedIDs ++ [id],
          registries := clearRegs id w.registries } : World V) where
  ids := by
    intro i e h
    simp only [List.getElem?_set] at h
    split at h
    · rename_i hi
      rw [if_pos (lt_of_getElem?_eq_some hent)] at h
      cases h
      subst hi
      exact hwf.ids _ ent hent
    · exact hwf.ids i e h
  nodup := by
    have hnot : id ∉ w.deletedIDs := by
      intro hmem
      obtain ⟨e, he, hdel⟩ := (hwf.free id).1 hmem
      rw [hent] at he
      cases he
      rw [hlive] at hdel
      cases hdel
    exact List.Nodup.append hwf.nodup (List.nodup_singleton id) (by simpa using hnot)
  free := by
    intro j
    simp only [List.getElem?_set, List.mem_append, List.mem_singleton]
    by_cases hji : id = j
    · subst hji
      rw [if_pos rfl, if_pos (lt_of_getElem?_eq_some hent)]
      simp
    · rw [if_neg hji, ← hwf.free j]
      simp [Ne.symm hji]
  regs := by
    intro kr hkr
    simp only [clearRegs, List.mem_map] at hkr
    obtain ⟨kr0, hkr0, rfl⟩ := hkr
    simpa [length_clearAt] using hwf.regs kr0 hkr0

theorem WF_SpawnEntity [Inhabited V] {w w1 : World V} {e : Entity} (hwf : WF w)
    (hfit : Fits w) (h : SpawnEntity w = some (w1, e)) : WF w1 := by
  cases hfree : w.deletedIDs with
  | nil =>
    rw [SpawnEntity_fresh w hfree hfit] at h
    cases h
    exact WF_spawn_fresh w hwf hfree
  | cons id rest =>
    have hid : id < w.entities.length := by
      obtain ⟨ent, he, _⟩ := (hwf.free id).1 (by rw [hfree]; exact List.mem_cons_self _ _)
      exact lt_of_getElem?_eq_some he
    rw [SpawnEntity_reuse w id rest hfree hid] at h
    cases h
    exact WF_spawn_reuse w hwf id rest hfree hid

theorem WF_DeleteEntity {w w1 : World V} {id : Nat} {r : Option GoError} (hwf : WF w)
    (hfit : Fits w) (h : DeleteEntity w id = some (w1, r)) : WF w1 := by
  by_cases hg : idSucc id > toID w.entities.length
  · unfold DeleteEntity at h
    rw [if_pos hg] at h
    cases h
    exact hwf
  · cases hent : w.entities[id]? with
    | none =>
      unfold DeleteEntity at h
      rw [if_neg hg, hent] at h
      cases h
    | some ent =>
      cases hdel : ent.deleted with
      | true =>
        unfold DeleteEntity at h
        rw [if_neg hg, hent] at h
        simp only [hdel, if_true] at h
        cases h
        exact hwf
      | false =>
        obtain ⟨_, h1, _⟩ := DeleteEntity_live_inv w id ent hent hdel hfit hwf.regs h
        rw [h1]
        exact WF_delete_live w hwf id ent hent hdel

theorem WF_SetComponent [Inhabited V] {w w1 : World V} {ent : Entity} {key : String} {c : V}
    {r : Option GoError} (hwf : WF w) (hfit : Fits w) (hid : ent.id < w.entities.length)
    (h : SetComponent w ent key c = some (w1, r)) : WF w1 := by
  cases hd : ent.deleted with
  | true =>
    unfold SetComponent at h
    rw [if_pos hd] at h
    cases h
    exact hwf
  | false =>
    obtain ⟨reg0, cw, _, hcw, hle1, hle2, _, hset⟩ :=
      SetComponent_handle w ent key c hd hid hfit hwf.regs
    rw [hset] at h
    cases h
    refine ⟨hwf.ids, hwf.nodup, hwf.free, ?_⟩
    intro kr hkr
    rcases mem_mapSet hkr with rfl | hold
    · show w.entities.length ≤ _ ∧ _ ≤ w.entities.length + 1
      split <;> simp [hle1, hle2]
    · exact hwf.regs kr hold

theorem SpawnEntity_length_le [Inhabited V] {w w1 : World V} {e : Entity}
    (h : SpawnEntity w = some (w1, e)) : w.entities.length ≤ w1.entities.length := by
  unfold SpawnEntity at h
  split at h
  · split at h
    · simp only [Option.map_eq_some'] at h
      obtain ⟨_, _, h⟩ := h
      cases h
      simp
    · cases h
  · simp only [Option.map_eq_some'] at h
    obtain ⟨_, _, h⟩ := h
    cases h
    simp

theorem DeleteEntity_length {w w1 : World V} {id : Nat} {r : Option GoError}
    (h : DeleteEntity w id = some (w1, r)) : w1.entities.length = w.entities.length := by
  unfold DeleteEntity at h
  split at h
  · cases h; rfl
  · split at h
    · cases h
    · split at h
      · cases h; rfl
      · split at h
        · cases h
        · split at h <;> (cases h; simp)

theorem SetComponent_entities [Inhabited V] {w w1 : World V} {ent : Entity} {key : String}
    {c : V} {r : Option GoError} (h : SetComponent w ent key c = some (w1, r)) :
    w1.entities = w.entities ∧ w1.deletedIDs = w.deletedIDs := by
  unfold SetComponent at h
  split at h
  · cases h; exact ⟨rfl, rfl⟩
  · cases hg : getRegistry w key with
    | none =>
      simp only [hg, assignRegistry] at h
      split at h
      · cases h
      · cases h; exact ⟨rfl, rfl⟩
    | some reg =>
      simp only [hg] at h
      split at h
      · cases h
      · cases h; exact ⟨rfl, rfl⟩

/-- Every reachable world whose entity table fits a Go slice satisfies the
invariant. -/
theorem Reachable.wf [Inhabited V] {w : World V} (hr : Reachable w) (hfit : Fits w) : WF w := by
  induction hr with
  | new => exact WF_NewWorld
  | @spawn w0 _ _ _ hs ih =>
    have hle := SpawnEntity_length_le hs
    have hfit0 : Fits w0 := Nat.lt_of_le_of_lt hle hfit
    exact WF_SpawnEntity (ih hfit0) hfit0 hs
  | @delete w0 _ _ _ _ _ hd ih =>
    have hlen := DeleteEntity_length hd
    have hfit0 : Fits w0 := by unfold Fits at hfit ⊢; rw [← hlen]; exact hfit
    exact WF_DeleteEntity (ih hfit0) hfit0 hd
  | @set w0 _ _ _ _ _ _ hid hs ih =>
    have hent := (SetComponent_entities hs).1
    have hfit0 : Fits w0 := by unfold Fits at hfit ⊢; rw [← hent]; exact hfit
    exact WF_SetComponent (ih hfit0) hfit0 hid hs

theorem GetComponent_of_slot (w : World V) (ent : Entity) (key : String) (reg : registry V)
    (cw : componentWrapper V) (hd : ent.deleted = false) (hg : getRegistry w key = some reg)
    (hlen : reg.items.length < 2 ^ 64) (hcw : reg.items[ent.id]? = some cw) :
    GetComponent w ent key =
      some (if cw.assigned then .ok cw.Data else .error (.sentinel .ErrNotAssigned)) := by
  have hlt : ent.id < reg.items.length := lt_of_getElem?_eq_some hcw
  have hguard : ¬ ent.id ≥ toID reg.items.length := by
    rw [toID_of_lt hlen]
    exact Nat.not_le_of_lt hlt
  unfold GetComponent
  rw [if_neg (by simp [hd])]
  simp only [hg, if_neg hguard, hcw]
  cases cw.assigned <;> simp

theorem GetComponent_ok_inv {w : World V} {ent : Entity} {key : String} {c : V}
    (h : GetComponent w ent key = some (.ok c)) :
    ent.deleted = false ∧ ∃ reg cw, getRegistry w key = some reg ∧
      reg.items[ent.id]? = some cw ∧ cw.assigned = true ∧ cw.Data = c := by
  unfold GetComponent at h
  split at h
  · cases h
  · rename_i hd
    refine ⟨by simpa using hd, ?_⟩
    split at h
    · cases h
    · rename_i reg hg
      split at h
      · cases h
      · split at h
        · cases h
        · rename_i cw hcw
          split at h
          · cases h
          · rename_i ha
            simp only [Option.some.injEq, Except.ok.injEq] at h
            exact ⟨reg, cw, hg, hcw, by simpa using ha, h⟩

/-! ## The worlds of `TestEntity` are reachable -/

theorem spawn_NewWorld : SpawnEntity (NewWorld : World String) = some (worldSpawned, firstHandle) := by
  decide

theorem set_worldSpawned :
    SetComponent worldSpawned firstHandle "testComp" "hello" = some (worldAssigned, none) := by
  decide

theorem delete_worldAssigned : DeleteEntity worldAssigned 0 = some (worldDeleted, none) := by
  decide

theorem reachable_worldSpawned : Reachable worldSpawned :=
  Reachable.spawn Reachable.new spawn_NewWorld

theorem reachable_worldAssigned : Reachable worldAssigned :=
  Reachable.set reachable_worldSpawned (by decide) set_worldSpawned

theorem reachable_worldDeleted : Reachable worldDeleted :=
  Reachable.delete reachable_worldAssigned (by decide) delete_worldAssigned

theorem fits_worldSpawned : Fits worldSpawned := by unfold Fits; decide

theorem fits_worldAssigned : Fits worldAssigned := by unfold Fits; decide

theorem fits_worldDeleted : Fits worldDeleted := by unfold Fits; decide

/-! ## Claims -/

/-- C1. Set/get round trip: in a reachable world, for a handle `e` returned by
`SpawnEntity` whose record is not deleted and a component type (`key`) that has
no component assigned to `e`, with or without a registry for it,
`SetComponent(e, c)` returns nil and a following `GetComponent` of that type on
`e` returns `c` with no error. -/
theorem C1_set_get_round_trip [Inhabited V] (w : World V) (hr : Reachable w) (hfit : Fits w)
    (e : Entity) (hh : IsHandle w e) (_hlive : Live w e.id) (key : String) (c : V)
    (hfree : ∀ reg cw, getRegistry w key = some reg → reg.items[e.id]? = some cw →
      cw.assigned = false) :
    ∃ w1, SetComponent w e key c = some (w1, none) ∧ GetComponent w1 e key = some (.ok c) := by
  have hwf := hr.wf hfit
  have h63 : w.entities.length < 2 ^ 63 := hfit
  obtain ⟨reg0, cw, hreg0, hcw, _, hle2, hnone, hset⟩ :=
    SetComponent_handle w e key c hh.2 hh.1 hfit hwf.regs
  have ha : cw.assigned = false := by
    cases hg : getRegistry w key with
    | none => exact hnone hg
    | some reg =>
      rw [hg] at hreg0
      simp only [Option.getD_some] at hreg0
      subst hreg0
      exact hfree _ cw hg hcw
  rw [ha] at hset
  simp only [Bool.false_eq_true, if_false] at hset
  refine ⟨_, hset, ?_⟩
  have hlt : e.id < reg0.items.length := lt_of_getElem?_eq_some hcw
  rw [GetComponent_of_slot _ e key
    { items := reg0.items.set e.id { assigned := true, Data := c } }
    { assigned := true, Data := c } hh.2
    (by unfold getRegistry; exact mapGet_mapSet_self _ _ _)
    (by simp only [List.length_set]; omega)
    (by simp only [List.getElem?_set_self hlt])]
  rfl

/-- Witness of C1 on the world of `TestEntity` after its first spawn. -/
theorem C1_set_get_round_trip_witness :
    ∃ w1, SetComponent worldSpawned firstHandle "testComp" "hello" = some (w1, none) ∧
      GetComponent w1 firstHandle "testComp" = some (.ok "hello") :=
  C1_set_get_round_trip worldSpawned reachable_worldSpawned fits_worldSpawned firstHandle
    ⟨by decide, rfl⟩ ⟨firstHandle, rfl, rfl⟩ "testComp" "hello"
    (by intro reg cw h; simp [getRegistry, worldSpawned, mapGet] at h)

/-- C2. Double assignment: on the handle of `TestEntity`, which already has a
`testComp` assigned, a second `SetComponent` of the same type returns nil, not
an error that is `ErrAlreadyAssigned`; the error of `registry.assign` is
dropped. -/
theorem C2_double_assignment_returns_nil :
    GetComponent worldAssigned firstHandle "testComp" = some (.ok "hello") ∧
    ∃ r, SetComponent worldAssigned firstHandle "testComp" "bye" = some (worldAssigned, r) ∧
      Is r .ErrAlreadyAssigned = false :=
  ⟨rfl, none, by decide, rfl⟩

/-- C3. A rejected assignment changes nothing: `registry.assign` on a slot that
is marked assigned returns an error and the registry as it was, every slot
with its flag and data; and in a reachable world, for a live handle `e` whose
component of type `key` is `c1`, after a second `SetComponent(e, c2)` of that
type `GetComponent` on `e` still yields `c1`. -/
theorem C3_rejected_assignment_changes_nothing [Inhabited V]
    (reg : registry V) (id : Nat) (cw : componentWrapper V) (d : V)
    (hslot : reg.items[id]? = some cw) (hassigned : cw.assigned = true)
    (w : World V) (hr : Reachable w) (hfit : Fits w)
    (e : Entity) (hh : IsHandle w e) (_hlive : Live w e.id) (key : String) (c1 c2 : V)
    (hget : GetComponent w e key = some (.ok c1)) :
    (∃ err, reg.assign id d = some (reg, .error err) ∧
      (reg.items.length < 2 ^ 64 → err.Is .ErrAlreadyAssigned = true)) ∧
    ∃ w1 r, SetComponent w e key c2 = some (w1, r) ∧
      GetComponent w1 e key = some (.ok c1) := by
  constructor
  · by_cases hg : idSucc id > toID reg.items.length
    · refine ⟨.errorf "%w (%d)" (.sentinel .ErrNoEntity), ?_, ?_⟩
      · unfold registry.assign
        rw [if_pos hg]
      · intro hlen
        exact absurd hg (guard_of_lt (lt_of_getElem?_eq_some hslot) hlen)
    · refine ⟨.errorf "%w (%d, %s)" (.sentinel .ErrAlreadyAssigned), ?_, fun _ => rfl⟩
      unfold registry.assign
      rw [if_neg hg, hslot]
      simp [hassigned]
  · have hwf := hr.wf hfit
    have h63 : w.entities.length < 2 ^ 63 := hfit
    obtain ⟨hd, reg1, cw1, hg1, hcw1, ha1, hdata⟩ := GetComponent_ok_inv hget
    obtain ⟨reg0, cw0, hreg0, hcw0, _, hle2, _, hset⟩ :=
      SetComponent_handle w e key c2 hh.2 hh.1 hfit hwf.regs
    rw [hg1] at hreg0
    simp only [Option.getD_some] at hreg0
    subst hreg0
    rw [hcw1] at hcw0
    cases hcw0
    rw [ha1] at hset
    simp only [if_true] at hset
    refine ⟨_, _, hset, ?_⟩
    rw [GetComponent_of_slot _ e key reg0 cw1 hd
      (by unfold getRegistry; exact mapGet_mapSet_self _ _ _) (by omega) hcw1]
    simp [ha1, hdata]

/-- Witness of C3 on the world of `TestEntity` after its `SetComponent`. -/
theorem C3_rejected_assignment_changes_nothing_witness :
    (∃ err, registry.assign
        ({ items := [{ assigned := true, Data := "hello" }] } : registry String) 0 "bye" =
          some ({ items := [{ assigned := true, Data := "hello" }] }, .error err) ∧
      (([{ assigned := true, Data := "hello" }] : List (componentWrapper String)).length
          < 2 ^ 64 → err.Is .ErrAlreadyAssigned = true)) ∧
    ∃ w1 r, SetComponent worldAssigned firstHandle "testComp" "bye" = some (w1, r) ∧
      GetComponent w1 firstHandle "testComp" = some (.ok "hello") :=
  C3_rejected_assignment_changes_nothing
    { items := [{ assigned := true, Data := "hello" }] } 0
    { assigned := true, Data := "hello" } "bye" rfl rfl
    worldAssigned reachable_worldAssigned fits_worldAssigned firstHandle
    ⟨by decide, rfl⟩ ⟨firstHandle, rfl, rfl⟩ "testComp" "hello" "bye" rfl

/-- C4. A component removed by deletion is gone: in a reachable world, for a live
handle `e` with a component of type `key` assigned, after a `DeleteEntity(e.id)`
that has returned the following `SpawnEntity` returns, and when it returns the
identity of `e`, `GetComponent` of that type on the new handle fails with an
error that is `ErrNotAssigned`; and `DeleteEntity(e.id)` does return when `e` has
a component assigned in every registry of the world. -/
theorem C4_component_gone_after_delete [Inhabited V] (w : World V) (hr : Reachable w)
    (hfit : Fits w) (e : Entity) (_hh : IsHandle w e) (hlive : Live w e.id) (key : String)
    (c : V) (hget : GetComponent w e key = some (.ok c)) :
    ((∀ kr ∈ w.registries, ∃ cw, kr.2.items[e.id]? = some cw ∧ cw.assigned = true) →
      ∃ w1 r, DeleteEntity w e.id = some (w1, r)) ∧
    ∀ w1 r, DeleteEntity w e.id = some (w1, r) →
      ∃ w2 e2, SpawnEntity w1 = some (w2, e2) ∧
        (e2.id = e.id → ∃ err, GetComponent w2 e2 key = some (.error err) ∧
          err.Is .ErrNotAssigned = true) := by
  have hwf := hr.wf hfit
  have h63 : w.entities.length < 2 ^ 63 := hfit
  obtain ⟨ent, hent, hnd⟩ := hlive
  obtain ⟨_, reg, cw, hg, hcw, _, _⟩ := GetComponent_ok_inv hget
  refine ⟨fun hall => ⟨_, _, DeleteEntity_live_assigned w e.id ent hent hnd hfit hwf.regs hall⟩,
    ?_⟩
  intro w1 r hdel
  obtain ⟨_, hw1, _⟩ := DeleteEntity_live_inv w e.id ent hent hnd hfit hwf.regs hdel
  subst hw1
  have hwf1 := WF_delete_live w hwf e.id ent hent hnd
  obtain ⟨id0, rest, hq⟩ : ∃ id0 rest, w.deletedIDs ++ [e.id] = id0 :: rest := by
    cases hq : w.deletedIDs ++ [e.id] with
    | nil => simp at hq
    | cons id0 rest => exact ⟨id0, rest, rfl⟩
  have hid0 : id0 < w.entities.length := by
    obtain ⟨ent0, he0, _⟩ := (hwf1.free id0).1 (by
      show id0 ∈ w.deletedIDs ++ [e.id]
      rw [hq]
      exact List.mem_cons_self _ _)
    have := lt_of_getElem?_eq_some he0
    simpa using this
  have hspawn := SpawnEntity_reuse
    ({ entities := w.entities.set e.id { ent with deleted := true },
       deletedIDs := w.deletedIDs ++ [e.id],
       registries := clearRegs e.id w.registries } : World V)
    id0 rest hq (by simpa using hid0)
  refine ⟨_, _, hspawn, ?_⟩
  intro hsame
  simp only at hsame
  have hlen := (hwf.regs _ (mapGet_mem hg)).2
  simp only at hlen
  refine ⟨.sentinel .ErrNotAssigned, ?_, rfl⟩
  rw [GetComponent_of_slot _ _ key { items := clearAt reg.items e.id }
    { cw with assigned := false } rfl
    (by unfold getRegistry; simp only [mapGet_clearRegs]; unfold getRegistry at hg; rw [hg]; rfl)
    (by simp only [length_clearAt]; omega)
    (by simp only [hsame, getElem?_clearAt_self, hcw]; rfl)]
  rfl

/-- Witness of C4 on the world of `TestEntity` after its `SetComponent`. -/
theorem C4_component_gone_after_delete_witness :
    ∃ w1 r, DeleteEntity worldAssigned firstHandle.id = some (w1, r) ∧
      ∃ w2 e2, SpawnEntity w1 = some (w2, e2) ∧
        (e2.id = firstHandle.id → ∃ err, GetComponent w2 e2 "testComp" = some (.error err) ∧
          err.Is .ErrNotAssigned = true) :=
  ⟨worldDeleted, none, delete_worldAssigned,
    (C4_component_gone_after_delete worldAssigned reachable_worldAssigned fits_worldAssigned
      firstHandle ⟨by decide, rfl⟩ ⟨firstHandle, rfl, rfl⟩ "testComp" "hello" rfl).2
      worldDeleted none delete_worldAssigned⟩

theorem spawn_worldSpawned :
    SpawnEntity worldSpawned = some (worldTwo, { id := 1, deleted := false, tags := [] }) := by
  decide

theorem delete_worldTwo : DeleteEntity worldTwo 0 = some (worldTwoOneFreed, none) := by
  decide

theorem reachable_worldTwo : Reachable worldTwo :=
  Reachable.spawn reachable_worldSpawned spawn_worldSpawned

theorem reachable_worldTwoOneFreed : Reachable worldTwoOneFreed :=
  Reachable.delete reachable_worldTwo (by decide) delete_worldTwo

theorem set_worldTwo :
    SetComponent worldTwo firstHandle "testComp" "hello" = some (worldTwoAssigned, none) := by
  decide

theorem reachable_worldTwoAssigned : Reachable worldTwoAssigned :=
  Reachable.set reachable_worldTwo (by decide) set_worldTwo

theorem fits_worldTwoAssigned : Fits worldTwoAssigned := by unfold Fits; decide

theorem fits_worldTwo : Fits worldTwo := by unfold Fits; decide

theorem fits_worldTwoOneFreed : Fits worldTwoOneFreed := by unfold Fits; decide

/-- With the invariant, `SpawnEntity` on a non-empty free list reuses its head. -/
theorem SpawnEntity_head [Inhabited V] (w : World V) (hwf : WF w) (x : Nat) (rest : List ID)
    (hfree : w.deletedIDs = x :: rest) :
    x < w.entities.length ∧
    SpawnEntity w = some
      ({ w with
          deletedIDs := rest,
          entities := w.entities.set x { id := x, deleted := false, tags := [] } },
        { id := x, deleted := false, tags := [] }) := by
  have hx : x < w.entities.length := by
    obtain ⟨ent, he, _⟩ := (hwf.free x).1 (by rw [hfree]; exact List.mem_cons_self _ _)
    exact lt_of_getElem?_eq_some he
  exact ⟨hx, SpawnEntity_reuse w x rest hfree hx⟩

/-- With the invariant, a `DeleteEntity` of a live identity that returns has
queued the identity last, keeps the invariant and leaves the other records
alone. -/
theorem DeleteEntity_of_live (w : World V) (hwf : WF w) (hfit : Fits w) (X : Nat)
    (hlive : Live w X) (w1 : World V) (r : Option GoError)
    (h : DeleteEntity w X = some (w1, r)) :
    w1.deletedIDs = w.deletedIDs ++ [X] ∧
      WF w1 ∧ w1.entities.length = w.entities.length ∧
      (∀ j : Nat, j ≠ X → w1.entities[j]? = w.entities[j]?) ∧
      (∃ ent1, w1.entities[X]? = some ent1 ∧ ent1.deleted = true) := by
  obtain ⟨ent, hent, hnd⟩ := hlive
  obtain ⟨_, hw1, _⟩ := DeleteEntity_live_inv w X ent hent hnd hfit hwf.regs h
  subst hw1
  refine ⟨rfl, WF_delete_live w hwf X ent hent hnd, by simp, ?_, ?_⟩
  · intro j hj
    simp only [List.getElem?_set_ne (Ne.symm hj)]
  · exact ⟨_, List.getElem?_set_self (lt_of_getElem?_eq_some hent), rfl⟩

/-- C5, as stated, fails: in the reachable world with identities 0 and 1 where 0
has been deleted, identity 1 is live, yet a single `DeleteEntity(1)` followed by
`SpawnEntity` returns identity 0, not 1. -/
theorem C5_single_delete_spawn_counterexample :
    Reachable worldTwoOneFreed ∧ Live worldTwoOneFreed 1 ∧
    ∃ w1 r w2 e, DeleteEntity worldTwoOneFreed 1 = some (w1, r) ∧
      SpawnEntity w1 = some (w2, e) ∧ e.id = 0 ∧ e.id ≠ 1 :=
  ⟨reachable_worldTwoOneFreed, ⟨{ id := 1, deleted := false, tags := [] }, rfl, rfl⟩,
    { entities := [{ id := 0, deleted := true, tags := [] },
                   { id := 1, deleted := true, tags := [] }],
      deletedIDs := [0, 1], registries := [] }, none,
    { entities := [{ id := 0, deleted := false, tags := [] },
                   { id := 1, deleted := true, tags := [] }],
      deletedIDs := [1], registries := [] },
    { id := 0, deleted := false, tags := [] }, by decide, by decide, rfl, by decide⟩

/-- C5, amended. Identity recycling is FIFO: in a reachable world a `DeleteEntity`
of a live identity that returns has appended it to the end of the free list,
and when the free list is non-empty `SpawnEntity` returns its first element,
the earliest-deleted identity not yet reused, and removes exactly that element;
in particular, when the free list is empty beforehand, a single delete of `X`
followed by a spawn returns `X`, and deleting live `X` then `Y` and spawning
twice returns `X` then `Y`. The delete of a live identity does return when the
identity has a component assigned in every registry of the world. -/
theorem C5_recycling_is_fifo [Inhabited V] (w : World V) (hr : Reachable w) (hfit : Fits w) :
    (∀ (x : Nat) (rest : List ID), w.deletedIDs = x :: rest →
      ∃ w1 e, SpawnEntity w = some (w1, e) ∧ e.id = x ∧ w1.deletedIDs = rest) ∧
    (∀ X : Nat, Live w X →
      ((∀ kr ∈ w.registries, ∃ cw, kr.2.items[X]? = some cw ∧ cw.assigned = true) →
        ∃ w1 r, DeleteEntity w X = some (w1, r)) ∧
      ∀ w1 r, DeleteEntity w X = some (w1, r) → w1.deletedIDs = w.deletedIDs ++ [X]) ∧
    (w.deletedIDs = [] → ∀ X : Nat, Live w X →
      ∀ w1 r, DeleteEntity w X = some (w1, r) →
        ∃ w2 e, SpawnEntity w1 = some (w2, e) ∧ e.id = X) ∧
    (w.deletedIDs = [] → ∀ X Y : Nat, Live w X → Live w Y → X ≠ Y →
      ∀ w1 r1 w2 r2, DeleteEntity w X = some (w1, r1) → DeleteEntity w1 Y = some (w2, r2) →
        ∃ w3 e3 w4 e4, SpawnEntity w2 = some (w3, e3) ∧
          SpawnEntity w3 = some (w4, e4) ∧ e3.id = X ∧ e4.id = Y) := by
  have hwf := hr.wf hfit
  refine ⟨?_, ?_, ?_, ?_⟩
  · intro x rest hfree
    exact ⟨_, _, (SpawnEntity_head w hwf x rest hfree).2, rfl, rfl⟩
  · intro X hlive
    refine ⟨?_, ?_⟩
    · intro hall
      obtain ⟨ent, hent, hnd⟩ := hlive
      exact ⟨_, _, DeleteEntity_live_assigned w X ent hent hnd hfit hwf.regs hall⟩
    · intro w1 r h1
      exact (DeleteEntity_of_live w hwf hfit X hlive w1 r h1).1
  · intro hempty X hlive w1 r h1
    obtain ⟨h2, hwf1, _⟩ := DeleteEntity_of_live w hwf hfit X hlive w1 r h1
    rw [hempty, List.nil_append] at h2
    exact ⟨_, _, (SpawnEntity_head w1 hwf1 X [] h2).2, rfl⟩
  · intro hempty X Y hX hY hne w1 r1 w2 r2 h1 h2
    obtain ⟨hq1, hwf1, hlen1, hother1, _⟩ := DeleteEntity_of_live w hwf hfit X hX w1 r1 h1
    rw [hempty, List.nil_append] at hq1
    have hfit1 : Fits w1 := by unfold Fits at hfit ⊢; rw [hlen1]; exact hfit
    have hY1 : Live w1 Y := by
      obtain ⟨ent, he, hd⟩ := hY
      exact ⟨ent, by rw [hother1 Y (Ne.symm hne)]; exact he, hd⟩
    obtain ⟨hq2, hwf2, _⟩ := DeleteEntity_of_live w1 hwf1 hfit1 Y hY1 w2 r2 h2
    rw [hq1] at hq2
    have hs3 := SpawnEntity_head w2 hwf2 X [Y] hq2
    have hwf3 := WF_spawn_reuse w2 hwf2 X [Y] hq2 hs3.1
    have hs4 := SpawnEntity_head _ hwf3 Y [] rfl
    exact ⟨_, _, _, _, hs3.2, hs4.2, rfl, rfl⟩

/-- Witness of C5 (amended): with identity 0 in the free list the spawn returns
0, and from the world after two spawns, deleting 0 then 1 and spawning twice
returns 0 then 1. -/
theorem C5_recycling_is_fifo_witness :
    (∃ w1 e, SpawnEntity worldTwoOneFreed = some (w1, e) ∧ e.id = 0 ∧ w1.deletedIDs = []) ∧
    (∃ w1 r1 w2 r2 w3 e3 w4 e4, DeleteEntity worldTwo 0 = some (w1, r1) ∧
        DeleteEntity w1 1 = some (w2, r2) ∧ SpawnEntity w2 = some (w3, e3) ∧
        SpawnEntity w3 = some (w4, e4) ∧ e3.id = 0 ∧ e4.id = 1) := by
  have hdel1 : DeleteEntity worldTwoOneFreed 1 =
      some ({ entities := [{ id := 0, deleted := true, tags := [] },
                           { id := 1, deleted := true, tags := [] }],
              deletedIDs := [0, 1], registries := [] }, none) := by decide
  obtain ⟨w3, e3, w4, e4, h3, h4, hx, hy⟩ :=
    (C5_recycling_is_fifo worldTwo reachable_worldTwo fits_worldTwo).2.2.2 rfl 0 1
      ⟨{ id := 0, deleted := false, tags := [] }, rfl, rfl⟩
      ⟨{ id := 1, deleted := false, tags := [] }, rfl, rfl⟩ (by decide)
      worldTwoOneFreed none _ none delete_worldTwo hdel1
  exact ⟨(C5_recycling_is_fifo worldTwoOneFreed reachable_worldTwoOneFreed
      fits_worldTwoOneFreed).1 0 [] rfl,
    worldTwoOneFreed, none, _, none, w3, e3, w4, e4, delete_worldTwo, hdel1, h3, h4, hx, hy⟩

/-- C6. Fresh identities and table growth: in a reachable world, with an empty
free list `SpawnEntity` returns the identity equal to the table length before
the call and the table grows by exactly one record; with a non-empty free list
the table length is unchanged; `DeleteEntity` never changes the table length;
in both cases of `SpawnEntity` the returned record, which is the record of the
table at its identity, is not marked deleted and has an empty tag set. -/
theorem C6_fresh_identities_and_growth [Inhabited V] (w : World V) (hr : Reachable w)
    (hfit : Fits w) :
    (w.deletedIDs = [] → ∃ w1 e, SpawnEntity w = some (w1, e) ∧
      e.id = w.entities.length ∧ w1.entities.length = w.entities.length + 1 ∧
      w1.entities[e.id]? = some e ∧ e.deleted = false ∧ e.tags = []) ∧
    (w.deletedIDs ≠ [] → ∃ w1 e, SpawnEntity w = some (w1, e) ∧
      w1.entities.length = w.entities.length ∧
      w1.entities[e.id]? = some e ∧ e.deleted = false ∧ e.tags = []) ∧
    (∀ (id : Nat) (w1 : World V) (r : Option GoError),
      DeleteEntity w id = some (w1, r) → w1.entities.length = w.entities.length) := by
  have hwf := hr.wf hfit
  refine ⟨?_, ?_, ?_⟩
  · intro hempty
    refine ⟨_, _, SpawnEntity_fresh w hempty hfit, rfl, by simp, ?_, rfl, rfl⟩
    simp
  · intro hne
    cases hq : w.deletedIDs with
    | nil => exact absurd hq hne
    | cons x rest =>
      obtain ⟨hx, hs⟩ := SpawnEntity_head w hwf x rest hq
      refine ⟨_, _, hs, by simp, ?_, rfl, rfl⟩
      simp [List.getElem?_set_self hx]
  · intro id w1 r h
    exact DeleteEntity_length h

/-- Witness of C6: the spawns of `TestEntity`, fresh on the world with one
entity and recycled on the world after the delete. -/
theorem C6_fresh_identities_and_growth_witness :
    (∃ w1 e, SpawnEntity worldSpawned = some (w1, e) ∧
      e.id = 1 ∧ w1.entities.length = 2 ∧
      w1.entities[e.id]? = some e ∧ e.deleted = false ∧ e.tags = []) ∧
    (∃ w1 e, SpawnEntity worldDeleted = some (w1, e) ∧
      w1.entities.length = 1 ∧
      w1.entities[e.id]? = some e ∧ e.deleted = false ∧ e.tags = []) :=
  ⟨(C6_fresh_identities_and_growth worldSpawned reachable_worldSpawned fits_worldSpawned).1 rfl,
   (C6_fresh_identities_and_growth worldDeleted reachable_worldDeleted fits_worldDeleted).2.1
      (by decide)⟩

/-- C7. The size invariant fails on the code: after `NewWorld`, one `SpawnEntity`
and one `SetComponent`, the entity table has one record and the registry made
by `assignRegistry` has two slots, because `newRegistry` is handed the table
length where it expects the last identity. -/
theorem C7_new_registry_one_slot_longer :
    SpawnEntity (NewWorld : World String) = some (worldSpawned, firstHandle) ∧
    SetComponent worldSpawned firstHandle "testComp" "hello" = some (worldAssigned, none) ∧
    worldAssigned.entities.length = 1 ∧
    ∃ reg, getRegistry worldAssigned "testComp" = some reg ∧ reg.items.length = 2 :=
  ⟨by decide, by decide, rfl, _, rfl, rfl⟩

/-- C8. Identity uniqueness: in a reachable world the record at index `i` has
identity `i`; the free list has no duplicates and holds exactly the identities
whose record is marked deleted, all below the table length; hence `SpawnEntity`
returns without indexing outside the table, and the identity it returns was
not that of a live entity and lies inside the table. -/
theorem C8_identity_uniqueness [Inhabited V] (w : World V) (hr : Reachable w)
    (hfit : Fits w) :
    (∀ (i : Nat) (ent : Entity), w.entities[i]? = some ent → ent.id = i) ∧
    w.deletedIDs.Nodup ∧
    (∀ id : Nat, id ∈ w.deletedIDs ↔
      ∃ ent, w.entities[id]? = some ent ∧ ent.deleted = true) ∧
    (∀ id ∈ w.deletedIDs, id < w.entities.length) ∧
    ∃ w1 e, SpawnEntity w = some (w1, e) ∧ ¬ Live w e.id ∧ e.id < w1.entities.length := by
  have hwf := hr.wf hfit
  refine ⟨hwf.ids, hwf.nodup, hwf.free, ?_, ?_⟩
  · intro id hid
    obtain ⟨ent, he, _⟩ := (hwf.free id).1 hid
    exact lt_of_getElem?_eq_some he
  · cases hq : w.deletedIDs with
    | nil =>
      refine ⟨_, _, SpawnEntity_fresh w hq hfit, ?_, by simp⟩
      rintro ⟨ent, he, _⟩
      have := lt_of_getElem?_eq_some he
      simp at this
    | cons x rest =>
      obtain ⟨hx, hs⟩ := SpawnEntity_head w hwf x rest hq
      refine ⟨_, _, hs, ?_, by simpa using hx⟩
      rintro ⟨ent, he, hnd⟩
      obtain ⟨ent1, he1, hd1⟩ := (hwf.free x).1 (by rw [hq]; exact List.mem_cons_self _ _)
      simp only at he
      rw [he1] at he
      cases he
      rw [hd1] at hnd
      cases hnd

/-- Witness of C8 on the world with identity 1 live and identity 0 freed. -/
theorem C8_identity_uniqueness_witness :
    (∀ (i : Nat) (ent : Entity), worldTwoOneFreed.entities[i]? = some ent → ent.id = i) ∧
    worldTwoOneFreed.deletedIDs.Nodup ∧
    (∀ id : Nat, id ∈ worldTwoOneFreed.deletedIDs ↔
      ∃ ent, worldTwoOneFreed.entities[id]? = some ent ∧ ent.deleted = true) ∧
    (∀ id ∈ worldTwoOneFreed.deletedIDs, id < worldTwoOneFreed.entities.length) ∧
    ∃ w1 e, SpawnEntity worldTwoOneFreed = some (w1, e) ∧ ¬ Live worldTwoOneFreed e.id ∧
      e.id < w1.entities.length :=
  C8_identity_uniqueness worldTwoOneFreed reachable_worldTwoOneFreed fits_worldTwoOneFreed

/-- C9. The accessors test the caller's copy, not the world's record: after
`DeleteEntity` has marked identity 0 deleted in the world of `TestEntity`, the
handle returned by the earlier `SpawnEntity` still has `deleted = false`, so
`GetComponent` passes the check and answers `ErrNotAssigned`, which is not
`ErrEntityDeleted`, and `SetComponent` returns nil and assigns the component
to the slot of the deleted identity. -/
theorem C9_stale_handle_passes_deleted_check :
    SpawnEntity (NewWorld : World String) = some (worldSpawned, firstHandle) ∧
    DeleteEntity worldAssigned firstHandle.id = some (worldDeleted, none) ∧
    worldDeleted.entities[firstHandle.id]? = some { id := 0, deleted := true, tags := [] } ∧
    GetComponent worldDeleted firstHandle "testComp" =
      some (.error (.sentinel .ErrNotAssigned)) ∧
    GoError.Is (.sentinel .ErrNotAssigned) .ErrEntityDeleted = false ∧
    ∃ w3, SetComponent worldDeleted firstHandle "testComp" "bye" = some (w3, none) ∧
      ∃ reg, getRegistry w3 "testComp" = some reg ∧
        reg.items[firstHandle.id]? = some { assigned := true, Data := "bye" } :=
  ⟨by decide, by decide, rfl, rfl, rfl,
    { entities := [{ id := 0, deleted := true, tags := [] }], deletedIDs := [0],
      registries := [("testComp", { items := [{ assigned := true, Data := "bye" },
                                              { assigned := false, Data := "" }] })] },
    by decide, _, rfl, rfl⟩

/-- C10. The cleanup error is never returned: in the world after two spawns and
`SetComponent(ent0, testComp{msg: "hello"})`, identity 1 is in range and not
marked deleted and has no component in the registry of `testComp`;
`DeleteEntity(ctx, 1)` calls `remove` on that registry, whose branch for an
unassigned slot calls `Name` on the erased `Data` and panics, so the call does
not return the error that is `ErrComponentCleanupFailed` and `ErrNotAssigned`;
the delete of identity 0, which has a component in every registry, returns
nil. -/
theorem C10_cleanup_error_never_returned :
    Reachable worldTwoAssigned ∧ Fits worldTwoAssigned ∧
    SetComponent worldTwo firstHandle "testComp" "hello" = some (worldTwoAssigned, none) ∧
    worldTwoAssigned.entities[1]? = some { id := 1, deleted := false, tags := [] } ∧
    (∃ reg, getRegistry worldTwoAssigned "testComp" = some reg ∧
      reg.items[1]? = some { assigned := false, Data := "" } ∧ reg.remove 1 = none) ∧
    DeleteEntity worldTwoAssigned 1 = none ∧
    ∃ w1, DeleteEntity worldTwoAssigned 0 = some (w1, none) :=
  ⟨reachable_worldTwoAssigned, fits_worldTwoAssigned,
    by decide, rfl, ⟨_, rfl, rfl, by decide⟩, by decide,
    { entities := [{ id := 0, deleted := true, tags := [] },
                   { id := 1, deleted := false, tags := [] }],
      deletedIDs := [0],
      registries := [("testComp", { items := [{ assigned := false, Data := "hello" },
                                              { assigned := false, Data := "" },
                                              { assigned := false, Data := "" }] })] },
    by decide⟩

/-- C11. Deleting twice is rejected atomically: for an in-range identity whose
record is already marked deleted, `DeleteEntity` returns an error that is
`ErrEntityDeleted` and the world it leaves is the world it was given, so the
record stays deleted, the free list gets no second copy of the identity and no
registry is touched. -/
theorem C11_double_delete_rejected (w : World V) (hfit : Fits w) (id : Nat) (ent : Entity)
    (hent : w.entities[id]? = some ent) (hdel : ent.deleted = true) :
    ∃ err, DeleteEntity w id = some (w, some err) ∧ err.Is .ErrEntityDeleted = true := by
  have h63 : w.entities.length < 2 ^ 63 := hfit
  have hg : ¬ idSucc id > toID w.entities.length :=
    guard_of_lt (lt_of_getElem?_eq_some hent) (by omega)
  refine ⟨.errorf "%w (%d)" (.sentinel .ErrEntityDeleted), ?_, rfl⟩
  unfold DeleteEntity
  rw [if_neg hg, hent]
  simp [hdel]

/-- Witness of C11 on the world of `TestEntity` after its `DeleteEntity`. -/
theorem C11_double_delete_rejected_witness :
    ∃ err, DeleteEntity worldDeleted 0 = some (worldDeleted, some err) ∧
      err.Is .ErrEntityDeleted = true :=
  C11_double_delete_rejected worldDeleted fits_worldDeleted 0
    { id := 0, deleted := true, tags := [] } rfl rfl

/-- C12. The range check of `DeleteEntity` wraps around at the largest `ID`: for
`id = 2 ^ 64 - 1`, which is not below the length of the empty table, `id+1` is 0,
the guard `id+1 > ID(len(world.entities))` is false and the call indexes the
table out of range and panics instead of returning `ErrNoEntity`; the same
happens on the world of `TestEntity`. -/
theorem C12_largest_id_passes_range_check :
    idSucc (2 ^ 64 - 1) = 0 ∧
    DeleteEntity (NewWorld : World String) (2 ^ 64 - 1) = none ∧
    DeleteEntity worldAssigned (2 ^ 64 - 1) = none ∧
    ∃ err, DeleteEntity worldAssigned (2 ^ 64 - 2) = some (worldAssigned, some err) ∧
      err.Is .ErrNoEntity = true :=
  ⟨by decide, by decide, by decide,
    .errorf "%w (%d)" (.sentinel .ErrNoEntity), by decide, rfl⟩

/-- C20. Every spawned identity has a slot in every registry: in a reachable
world each registry has more slots than any identity of the entity table; hence
for a handle returned by `SpawnEntity`, `GetComponent` returns and its error is
never `ErrRegistryBadSize`, the `assign` that `SetComponent` performs returns
(no index out of bounds) with an error that is never `ErrNoEntity`, and the
`remove` that `DeleteEntity` performs on each registry for a live identity
passes the range check, indexes inside the slice and, when it returns, returns
an error that is never `ErrNoEntity`. -/
theorem C20_every_identity_has_a_slot [Inhabited V] (w : World V) (hr : Reachable w)
    (hfit : Fits w) :
    (∀ kr ∈ w.registries, ∀ ent ∈ w.entities, ent.id < kr.2.items.length) ∧
    (∀ (e : Entity) (key : String), IsHandle w e →
      ∃ res, GetComponent w e key = some res ∧
        ∀ err, res = .error err → err.Is .ErrRegistryBadSize = false) ∧
    (∀ (e : Entity) (key : String) (c : V), IsHandle w e →
      (∃ w1 r, SetComponent w e key c = some (w1, r)) ∧
      ∃ reg1 res,
        (match getRegistry w key with
          | some reg => reg
          | none => (assignRegistry w key).2).assign e.id c = some (reg1, res) ∧
        ∀ err, res = .error err → err.Is .ErrNoEntity = false) ∧
    (∀ id : Nat, Live w id → ∀ kr ∈ w.registries,
      ¬ idSucc id > toID kr.2.items.length ∧
      (∃ cw, kr.2.items[id]? = some cw) ∧
      ∀ reg1 err, kr.2.remove id = some (reg1, err) → Is err .ErrNoEntity = false) := by
  have hwf := hr.wf hfit
  have h63 : w.entities.length < 2 ^ 63 := hfit
  refine ⟨?_, ?_, ?_, ?_⟩
  · intro kr hkr ent hent
    obtain ⟨n, hn⟩ := List.mem_iff_getElem?.1 hent
    have hid := hwf.ids n ent hn
    have hlt := lt_of_getElem?_eq_some hn
    have hle := (hwf.regs kr hkr).1
    rw [hid]
    exact Nat.lt_of_lt_of_le hlt hle
  · intro e key hh
    cases hg : getRegistry w key with
    | none =>
      refine ⟨.error (.errorf "registry for %s not present (%w)" (.sentinel .ErrNotAssigned)),
        ?_, ?_⟩
      · unfold GetComponent
        rw [if_neg (by simp [hh.2])]
        simp only [hg]
      · intro err herr
        cases herr
        rfl
    | some reg =>
      have hmem := hwf.regs _ (mapGet_mem hg)
      simp only at hmem
      have hlt : e.id < reg.items.length := Nat.lt_of_lt_of_le hh.1 hmem.1
      obtain ⟨cw, hcw⟩ : ∃ cw, reg.items[e.id]? = some cw :=
        ⟨_, List.getElem?_eq_getElem hlt⟩
      refine ⟨_, GetComponent_of_slot w e key reg cw hh.2 hg (by omega) hcw, ?_⟩
      intro err herr
      cases ha : cw.assigned with
      | true => rw [ha] at herr; simp at herr
      | false =>
        rw [ha] at herr
        simp only [Bool.false_eq_true, if_false, Except.error.injEq] at herr
        rw [← herr]
        rfl
  · intro e key c hh
    obtain ⟨reg0, cw, hreg0, hcw, _, hle2, _, hset⟩ :=
      SetComponent_handle w e key c hh.2 hh.1 hfit hwf.regs
    refine ⟨⟨_, _, hset⟩, ?_⟩
    have hsame : (match getRegistry w key with
          | some reg => reg
          | none => (assignRegistry w key).2) = reg0 := by
      rw [hreg0]
      cases getRegistry w key <;> rfl
    rw [hsame, assign_of_lt reg0 e.id c cw (by omega) hcw]
    cases ha : cw.assigned with
    | true =>
      refine ⟨_, _, rfl, ?_⟩
      intro err herr
      simp only [if_true, Except.error.injEq] at herr
      rw [← herr]
      rfl
    | false =>
      refine ⟨_, _, rfl, ?_⟩
      intro err herr
      simp at herr
  · intro id hlive kr hkr
    obtain ⟨ent, hent, _⟩ := hlive
    have hid := lt_of_getElem?_eq_some hent
    have hmem := hwf.regs kr hkr
    have hlt : id < kr.2.items.length := Nat.lt_of_lt_of_le hid hmem.1
    obtain ⟨cw, hcw⟩ : ∃ cw, kr.2.items[id]? = some cw :=
      ⟨_, List.getElem?_eq_getElem hlt⟩
    refine ⟨guard_of_lt hlt (by omega), ⟨cw, hcw⟩, ?_⟩
    intro reg1 err hrem
    rw [remove_of_lt kr.2 id cw (by omega) hcw] at hrem
    cases ha : cw.assigned with
    | false => rw [ha] at hrem; simp at hrem
    | true =>
      rw [ha] at hrem
      simp only [if_true, Option.some.injEq, Prod.mk.injEq] at hrem
      rw [← hrem.2]
      rfl

/-- Witness of C20 on the world of `TestEntity` after its `SetComponent`. -/
theorem C20_every_identity_has_a_slot_witness :
    (∀ kr ∈ worldAssigned.registries, ∀ ent ∈ worldAssigned.entities,
      ent.id < kr.2.items.length) ∧
    (∃ res, GetComponent worldAssigned firstHandle "testComp" = some res ∧
        ∀ err, res = .error err → err.Is .ErrRegistryBadSize = false) ∧
    (∃ reg1 err, registry.remove
        ({ items := [{ assigned := true, Data := "hello" },
                     { assigned := false, Data := "" }] } : registry String) 0 =
          some (reg1, err) ∧ Is err .ErrNoEntity = false) :=
  have h := C20_every_identity_has_a_slot worldAssigned reachable_worldAssigned
    fits_worldAssigned
  have hrem : registry.remove
      ({ items := [{ assigned := true, Data := "hello" },
                   { assigned := false, Data := "" }] } : registry String) 0 =
      some ({ items := [{ assigned := false, Data := "hello" },
                        { assigned := false, Data := "" }] }, none) := by decide
  ⟨h.1, h.2.1 firstHandle "testComp" ⟨by decide, rfl⟩, _, _, hrem,
    (h.2.2.2 0 ⟨firstHandle, rfl, rfl⟩ _ (List.mem_singleton.2 rfl)).2.2 _ _ hrem⟩

/-! ## Joined errors -/

theorem Is_Join (a b : Option GoError) (t : Sentinel) :
    Is (Join a b) t = (Is a t || Is b t) := by
  cases a <;> cases b <;> simp [Join, Is, GoError.Is]

theorem Join_eq_none (a b : Option GoError) : Join a b = none ↔ a = none ∧ b = none := by
  cases a <;> cases b <;> simp [Join]

theorem foldl_Join_eq_none (l : List (Option GoError)) (acc : Option GoError) :
    l.foldl Join acc = none ↔ acc = none ∧ ∀ e ∈ l, e = none := by
  induction l generalizing acc with
  | nil => simp
  | cons e rest ih =>
    simp only [List.foldl_cons, ih, Join_eq_none, List.mem_cons, forall_eq_or_imp]
    tauto

theorem Is_foldl_Join (l : List (Option GoError)) (acc : Option GoError) (t : Sentinel) :
    Is (l.foldl Join acc) t = true ↔ Is acc t = true ∨ ∃ e ∈ l, Is e t = true := by
  induction l generalizing acc with
  | nil => simp
  | cons e rest ih =>
    simp only [List.foldl_cons, ih, Is_Join, Bool.or_eq_true, List.mem_cons, exists_eq_or_imp]
    tauto

/-! ## The loop of a piped system -/

theorem pipedLoop_spec {S V D : Type} (op : Operation S V D) (items : List D)
    (world : Game S V) (acc : Option GoError) :
    (pipedLoop op items world acc).2.2.map Prod.fst = items ∧
    (pipedLoop op items world acc).2.1 =
      ((pipedLoop op items world acc).2.2.map Prod.snd).foldl Join acc ∧
    (pipedLoop op items world acc).1 = items.foldl (fun g d => (op g d).1) world := by
  induction items generalizing world acc with
  | nil => simp [pipedLoop]
  | cons d rest ih =>
    obtain ⟨h1, h2, h3⟩ := ih (op world d).1 (Join acc (op world d).2)
    refine ⟨?_, ?_, ?_⟩
    · simp only [pipedLoop, List.map_cons, h1]
    · simp only [pipedLoop, List.map_cons, List.foldl_cons]
      exact h2
    · simp only [pipedLoop, List.foldl_cons]
      exact h3

/-- C17. `PipedSystem` never stops early: the system it builds calls the
operation once on each item the pipe produces, in the order of the sequence,
each call on the world left by the one before, whatever the earlier calls
returned; its result is the join, in that order, of what the calls returned,
which is nil exactly when every call returned nil and has `ErrFatal` in its
cause chain exactly when the error of some call has. -/
theorem C17_piped_system_never_stops_early {S V D : Type} (sysPipe : List Entity → List D)
    (op : Operation S V D) (world : Game S V) (entSeq : List Entity) :
    PipedSystem sysPipe op world entSeq =
      ((pipedLoop op (sysPipe entSeq) world none).1,
       (pipedLoop op (sysPipe entSeq) world none).2.1) ∧
    (pipedLoop op (sysPipe entSeq) world none).2.2.map Prod.fst = sysPipe entSeq ∧
    (PipedSystem sysPipe op world entSeq).1 =
      (sysPipe entSeq).foldl (fun g d => (op g d).1) world ∧
    (PipedSystem sysPipe op world entSeq).2 =
      ((pipedLoop op (sysPipe entSeq) world none).2.2.map Prod.snd).foldl Join none ∧
    ((PipedSystem sysPipe op world entSeq).2 = none ↔
      ∀ call ∈ (pipedLoop op (sysPipe entSeq) world none).2.2, call.2 = none) ∧
    (Is (PipedSystem sysPipe op world entSeq).2 .ErrFatal = true ↔
      ∃ call ∈ (pipedLoop op (sysPipe entSeq) world none).2.2,
        Is call.2 .ErrFatal = true) := by
  obtain ⟨h1, h2, h3⟩ := pipedLoop_spec op (sysPipe entSeq) world none
  refine ⟨rfl, h1, h3, h2, ?_, ?_⟩
  · show (pipedLoop op (sysPipe entSeq) world none).2.1 = none ↔ _
    rw [h2, foldl_Join_eq_none]
    constructor
    · intro h call hcall
      exact h.2 call.2 (List.mem_map_of_mem Prod.snd hcall)
    · intro h
      refine ⟨rfl, ?_⟩
      intro e he
      obtain ⟨call, hcall, rfl⟩ := List.mem_map.1 he
      exact h call hcall
  · show Is (pipedLoop op (sysPipe entSeq) world none).2.1 .ErrFatal = true ↔ _
    rw [h2, Is_foldl_Join]
    constructor
    · rintro (h | ⟨e, he, hfatal⟩)
      · cases h
      · obtain ⟨call, hcall, rfl⟩ := List.mem_map.1 he
        exact ⟨call, hcall, hfatal⟩
    · rintro ⟨call, hcall, hfatal⟩
      exact Or.inr ⟨call.2, List.mem_map_of_mem Prod.snd hcall, hfatal⟩

/-- Witness of C17: on two entities, with an operation that fails fatally on
the second only, both calls are made and the result is fatal. -/
theorem C17_piped_system_never_stops_early_witness :
    (pipedLoop pickyOperation worldTwo.entities gameStart none).2.2.map Prod.fst =
      worldTwo.entities ∧
    (PipedSystem (fun ents => ents) pickyOperation gameStart worldTwo.entities).2 ≠ none ∧
    Is (PipedSystem (fun ents => ents) pickyOperation gameStart worldTwo.entities).2
      .ErrFatal = true :=
  have h := C17_piped_system_never_stops_early (fun ents => ents) pickyOperation gameStart
    worldTwo.entities
  ⟨h.2.1, by decide, h.2.2.2.2.2.2 ⟨(_, _), List.mem_cons_of_mem _ (List.mem_cons_self _ _), rfl⟩⟩

/-! ## Dispatch of a phase -/

theorem length_returnsOf {S V : Type} (acts : List (Action S V)) (world : Game S V) :
    (returnsOf acts world).length = acts.length := by
  induction acts generalizing world with
  | nil => rfl
  | cons a rest ih => simp [returnsOf, ih]

theorem runActions_spec {S V : Type} (phase : Phase) (acts : List (Action S V)) (index : Nat)
    (world : Game S V) (acc : Option GoError) :
    (runActions phase acts index world acc).2.2 =
      List.zipWith (Event.action phase) (List.range' index acts.length) (returnsOf acts world) ∧
    (runActions phase acts index world acc).2.1 = (returnsOf acts world).foldl Join acc ∧
    (runActions phase acts index world acc).1 = acts.foldl (fun g a => (a g).1) world := by
  induction acts generalizing index world acc with
  | nil => simp [runActions, returnsOf]
  | cons a rest ih =>
    obtain ⟨h1, h2, h3⟩ := ih (index + 1) (a world).1 (Join acc (a world).2)
    refine ⟨?_, ?_, ?_⟩
    · simp only [runActions, returnsOf, List.length_cons, List.range'_succ, List.zipWith_cons_cons,
        h1]
    · simp only [runActions, returnsOf, List.foldl_cons]
      exact h2
    · simp only [runActions, List.foldl_cons]
      exact h3

theorem dispatchPhase_spec {S V : Type} (sched : Schedule S V) (fanOut : FanOut S V)
    (phase : Phase) (world : Game S V) :
    ((∃ r ∈ returnsOf (sched.actions phase) world, r ≠ none) →
      dispatchPhase sched fanOut phase world =
        ((sched.actions phase).foldl (fun g a => (a g).1) world,
         (returnsOf (sched.actions phase) world).foldl Join none,
         Event.dispatch phase ::
           List.zipWith (Event.action phase) (List.range (sched.actions phase).length)
             (returnsOf (sched.actions phase) world)) ∧
      (returnsOf (sched.actions phase) world).foldl Join none ≠ none) ∧
    ((∀ r ∈ returnsOf (sched.actions phase) world, r = none) →
      dispatchPhase sched fanOut phase world =
        ((fanOut (sched.systems phase)
            ((sched.actions phase).foldl (fun g a => (a g).1) world)).1,
         (fanOut (sched.systems phase)
            ((sched.actions phase).foldl (fun g a => (a g).1) world)).2,
         Event.dispatch phase ::
           (List.zipWith (Event.action phase) (List.range (sched.actions phase).length)
             (returnsOf (sched.actions phase) world) ++
            [Event.systems phase (fanOut (sched.systems phase)
              ((sched.actions phase).foldl (fun g a => (a g).1) world)).2]))) := by
  obtain ⟨h1, h2, h3⟩ := runActions_spec phase (sched.actions phase) 0 world none
  rw [← List.range_eq_range'] at h1
  constructor
  · intro hsome
    have hne : (returnsOf (sched.actions phase) world).foldl Join none ≠ none := by
      intro hnone
      obtain ⟨r, hr, hrne⟩ := hsome
      exact hrne ((foldl_Join_eq_none _ _).1 hnone |>.2 r hr)
    refine ⟨?_, hne⟩
    unfold dispatchPhase
    cases hacc : (runActions phase (sched.actions phase) 0 world none).2.1 with
    | none => rw [h2] at hacc; exact absurd hacc hne
    | some e =>
      simp only [hacc]
      rw [← h1, ← h2, ← h3, hacc]
  · intro hall
    have hnone : (runActions phase (sched.actions phase) 0 world none).2.1 = none := by
      rw [h2]
      exact (foldl_Join_eq_none _ _).2 ⟨rfl, hall⟩
    unfold dispatchPhase
    simp only [hnone]
    rw [← h1, ← h3]

/-- C15. Action dispatch: `dispatchPhase` calls every action registered for the
phase once, in the order of registration, each on the world left by the one
before and whatever the earlier ones returned; when some action returned a
non-nil error, fatal or not, the result is the join in that order of what the
actions returned, it is not nil, and no system of the phase is launched; the
systems are launched, after the actions, only when every action returned
nil. -/
theorem C15_action_dispatch {S V : Type} (sched : Schedule S V) (fanOut : FanOut S V)
    (phase : Phase) (world : Game S V) :
    (∃ tail, (dispatchPhase sched fanOut phase world).2.2 =
      Event.dispatch phase ::
        (List.zipWith (Event.action phase) (List.range (sched.actions phase).length)
          (returnsOf (sched.actions phase) world) ++ tail)) ∧
    ((∃ r ∈ returnsOf (sched.actions phase) world, r ≠ none) →
      (dispatchPhase sched fanOut phase world).2.1 =
        (returnsOf (sched.actions phase) world).foldl Join none ∧
      (dispatchPhase sched fanOut phase world).2.1 ≠ none ∧
      (∀ t, Is (dispatchPhase sched fanOut phase world).2.1 t = true ↔
        ∃ r ∈ returnsOf (sched.actions phase) world, Is r t = true) ∧
      (dispatchPhase sched fanOut phase world).1 =
        (sched.actions phase).foldl (fun g a => (a g).1) world ∧
      ∀ ret, Event.systems phase ret ∉ (dispatchPhase sched fanOut phase world).2.2) ∧
    ((∀ r ∈ returnsOf (sched.actions phase) world, r = none) →
      (dispatchPhase sched fanOut phase world).2.2 =
        Event.dispatch phase ::
          (List.zipWith (Event.action phase) (List.range (sched.actions phase).length)
            (returnsOf (sched.actions phase) world) ++
           [Event.systems phase (dispatchPhase sched fanOut phase world).2.1]) ∧
      ((dispatchPhase sched fanOut phase world).1,
       (dispatchPhase sched fanOut phase world).2.1) =
        fanOut (sched.systems phase)
          ((sched.actions phase).foldl (fun g a => (a g).1) world)) := by
  obtain ⟨hsome, hall⟩ := dispatchPhase_spec sched fanOut phase world
  refine ⟨?_, ?_, ?_⟩
  · by_cases h : ∀ r ∈ returnsOf (sched.actions phase) world, r = none
    · rw [hall h]
      exact ⟨_, rfl⟩
    · have h1 : ∃ r ∈ returnsOf (sched.actions phase) world, r ≠ none := by
        by_contra hno
        apply h
        intro r hr
        by_contra hne
        exact hno ⟨r, hr, hne⟩
      rw [(hsome h1).1]
      exact ⟨[], by simp⟩
  · intro h
    obtain ⟨heq, hne⟩ := hsome h
    rw [heq]
    refine ⟨rfl, hne, ?_, rfl, ?_⟩
    · intro t
      show Is ((returnsOf (sched.actions phase) world).foldl Join none) t = true ↔ _
      rw [Is_foldl_Join]
      constructor
      · rintro (h0 | h0)
        · cases h0
        · exact h0
      · exact Or.inr
    · intro ret hmem
      simp only [List.mem_cons] at hmem
      rcases hmem with hmem | hmem
      · cases hmem
      · obtain ⟨i, hi⟩ := List.mem_iff_getElem?.1 hmem
        rw [List.getElem?_zipWith] at hi
        cases h1 : (List.range (sched.actions phase).length)[i]? with
        | none => rw [h1] at hi; simp at hi
        | some a =>
          cases h2 : (returnsOf (sched.actions phase) world)[i]? with
          | none => rw [h1, h2] at hi; simp at hi
          | some b => rw [h1, h2] at hi; simp at hi
  · intro h
    rw [hall h]
    exact ⟨rfl, rfl⟩

/-- Witness of C15: at `ON_START` the action that calls `Quit` and returns nil
and the fatal action are both called, in that order, and no system is
launched. -/
theorem C15_action_dispatch_witness :
    (dispatchPhase schedQuitThenFatal inOrder ON_START gameStart).2.1 =
        (returnsOf (schedQuitThenFatal.actions ON_START) gameStart).foldl Join none ∧
      (dispatchPhase schedQuitThenFatal inOrder ON_START gameStart).2.1 ≠ none ∧
      (∀ t, Is (dispatchPhase schedQuitThenFatal inOrder ON_START gameStart).2.1 t = true ↔
        ∃ r ∈ returnsOf (schedQuitThenFatal.actions ON_START) gameStart, Is r t = true) ∧
      (dispatchPhase schedQuitThenFatal inOrder ON_START gameStart).1 =
        (schedQuitThenFatal.actions ON_START).foldl (fun g a => (a g).1) gameStart ∧
      ∀ ret, Event.systems ON_START ret ∉
        (dispatchPhase schedQuitThenFatal inOrder ON_START gameStart).2.2 :=
  (C15_action_dispatch schedQuitThenFatal inOrder ON_START gameStart).2.1
    ⟨_, List.mem_cons_of_mem _ (List.mem_cons_self _ _), by decide⟩

/-! ## The log of a dispatch -/

theorem dispatched_append (a b : List Event) :
    dispatched (a ++ b) = dispatched a ++ dispatched b := by
  induction a with
  | nil => rfl
  | cons ev rest ih => cases ev <;> simp [dispatched, ih]

theorem runActions_log {S V : Type} (phase : Phase) (acts : List (Action S V)) (index : Nat)
    (world : Game S V) (acc : Option GoError) :
    dispatched (runActions phase acts index world acc).2.2 = [] ∧
    ∀ ev ∈ (runActions phase acts index world acc).2.2, ev.phase = phase := by
  induction acts generalizing index world acc with
  | nil => simp [runActions, dispatched]
  | cons a rest ih =>
    obtain ⟨h1, h2⟩ := ih (index + 1) (a world).1 (Join acc (a world).2)
    refine ⟨?_, ?_⟩
    · simp only [runActions, dispatched, h1]
    · intro ev hev
      simp only [runActions, List.mem_cons] at hev
      rcases hev with rfl | hev
      · rfl
      · exact h2 ev hev

theorem dispatchPhase_log {S V : Type} (sched : Schedule S V) (fanOut : FanOut S V)
    (phase : Phase) (world : Game S V) :
    dispatched (dispatchPhase sched fanOut phase world).2.2 = [phase] ∧
    ∀ ev ∈ (dispatchPhase sched fanOut phase world).2.2, ev.phase = phase := by
  obtain ⟨h1, h2⟩ := runActions_log phase (sched.actions phase) 0 world none
  unfold dispatchPhase
  cases hacc : (runActions phase (sched.actions phase) 0 world none).2.1 with
  | some e =>
    simp only [hacc]
    refine ⟨by simp only [dispatched, h1], ?_⟩
    intro ev hev
    simp only [List.mem_cons] at hev
    rcases hev with rfl | hev
    · rfl
    · exact h2 ev hev
  | none =>
    simp only [hacc]
    refine ⟨by simp only [dispatched, dispatched_append, h1, List.append_nil], ?_⟩
    intro ev hev
    simp only [List.mem_cons, List.mem_append, List.not_mem_nil, or_false] at hev
    rcases hev with rfl | hev | rfl
    · rfl
    · exact h2 ev hev
    · rfl

/-- C13. Fatal start aborts everything: when the dispatch of `ON_START` yields an
error with `ErrFatal` in its cause chain, `Run` returns that error, whatever
the number of sweeps allowed, and its log is the log of that one dispatch: no
other phase is dispatched, neither a loop phase nor `ON_END`, and every action
called and every launch of systems belongs to `ON_START`. -/
theorem C13_fatal_start_aborts {S V : Type} (sched : Schedule S V) (fanOut : FanOut S V)
    (fuel : Nat) (world : Game S V)
    (hfatal : Is (dispatchPhase sched fanOut ON_START world).2.1 .ErrFatal = true) :
    Run sched fanOut fuel world =
        some ((dispatchPhase sched fanOut ON_START world).1,
          (dispatchPhase sched fanOut ON_START world).2.1,
          (dispatchPhase sched fanOut ON_START world).2.2) ∧
      dispatched (dispatchPhase sched fanOut ON_START world).2.2 = [ON_START] ∧
      ∀ ev ∈ (dispatchPhase sched fanOut ON_START world).2.2, ev.phase = ON_START := by
  obtain ⟨h1, h2⟩ := dispatchPhase_log sched fanOut ON_START world
  refine ⟨?_, h1, h2⟩
  unfold Run
  simp only [hfatal, if_true]

/-- Witness of C13: with an `ON_START` action returning
`errors.Join(ErrFatal, ErrNotAssigned)`, a system at `ON_UPDATE` and an action
at `ON_END`, `Run` returns the fatal error after the one dispatch. -/
theorem C13_fatal_start_aborts_witness :
    Run schedFatalStart inOrder 3 gameStart =
        some ((dispatchPhase schedFatalStart inOrder ON_START gameStart).1,
          (dispatchPhase schedFatalStart inOrder ON_START gameStart).2.1,
          (dispatchPhase schedFatalStart inOrder ON_START gameStart).2.2) ∧
      dispatched (dispatchPhase schedFatalStart inOrder ON_START gameStart).2.2 = [ON_START] ∧
      ∀ ev ∈ (dispatchPhase schedFatalStart inOrder ON_START gameStart).2.2,
        ev.phase = ON_START :=
  C13_fatal_start_aborts schedFatalStart inOrder 3 gameStart (by decide)

/-- C14, as stated, fails: with a failing, non-fatal action at `ON_END` and `Quit`
called before `Run`, the loop ends normally and the dispatch of `ON_END` yields
a non-nil error, but `Run` returns nil. -/
theorem C14_nonfatal_end_result_dropped :
    (dispatchPhase schedFailingEnd inOrder ON_END (Quit gameStart)).2.1 =
      some (.join1 (.sentinel .ErrNotAssigned)) ∧
    Run schedFailingEnd inOrder 0 (Quit gameStart) =
      some (Quit gameStart, none,
        [Event.dispatch ON_START, Event.systems ON_START none, Event.dispatch ON_END,
         Event.action ON_END 0 (some (.sentinel .ErrNotAssigned))]) := by
  constructor <;> decide

/-- C14, amended. `Run`'s normal-exit result: whenever the dispatch of `ON_START`
is not fatal and the loop ends normally, `Run` dispatches `ON_END` and returns
the result of that dispatch when it has `ErrFatal` in its cause chain, and nil
otherwise. -/
theorem C14_run_normal_exit {S V : Type} (sched : Schedule S V) (fanOut : FanOut S V)
    (fuel : Nat) (world world1 : Game S V) (log : List Event)
    (hstart : Is (dispatchPhase sched fanOut ON_START world).2.1 .ErrFatal = false)
    (hloop : gameLoop sched fanOut (loopPhases sched) fuel
      (dispatchPhase sched fanOut ON_START world).1 = some (world1, none, log)) :
    Run sched fanOut fuel world =
      some ((dispatchPhase sched fanOut ON_END world1).1,
        (if Is (dispatchPhase sched fanOut ON_END world1).2.1 .ErrFatal
          then (dispatchPhase sched fanOut ON_END world1).2.1 else none),
        (dispatchPhase sched fanOut ON_START world).2.2 ++ log ++
          (dispatchPhase sched fanOut ON_END world1).2.2) := by
  unfold Run
  simp only [hstart, hloop]
  cases hfin : Is (dispatchPhase sched fanOut ON_END world1).2.1 .ErrFatal <;> simp

/-- Witness of C14 (amended): `Quit` called before `Run`, a failing, non-fatal
action at `ON_END`. -/
theorem C14_run_normal_exit_witness :
    Run schedFailingEnd inOrder 0 (Quit gameStart) =
      some ((dispatchPhase schedFailingEnd inOrder ON_END (Quit gameStart)).1,
        (if Is (dispatchPhase schedFailingEnd inOrder ON_END (Quit gameStart)).2.1 .ErrFatal
          then (dispatchPhase schedFailingEnd inOrder ON_END (Quit gameStart)).2.1 else none),
        (dispatchPhase schedFailingEnd inOrder ON_START (Quit gameStart)).2.2 ++ [] ++
          (dispatchPhase schedFailingEnd inOrder ON_END (Quit gameStart)).2.2) :=
  C14_run_normal_exit schedFailingEnd inOrder 0 (Quit gameStart) (Quit gameStart) []
    (by decide) (by decide)

/-! ## Registration keeps the phase list sorted -/

theorem registerPhase_sorted {S V : Type} (world : Schedule S V) (phase : Phase)
    (h : List.Sorted (fun a b : Nat => a < b) world.phases) :
    List.Sorted (fun a b : Nat => a < b) (registerPhase world phase).phases := by
  unfold registerPhase
  split
  · exact h
  · rename_i hnot
    have hperm := List.perm_insertionSort (fun a b : Nat => a ≤ b) (world.phases ++ [phase])
    have hnodup : (world.phases ++ [phase]).Nodup := by
      refine List.Nodup.append h.nodup (List.nodup_singleton phase) ?_
      intro a ha hb
      rw [List.mem_singleton] at hb
      subst hb
      exact hnot ha
    exact (List.sorted_insertionSort (fun a b : Nat => a ≤ b) _).lt_of_le
      (hperm.nodup_iff.2 hnodup)

theorem mem_registerPhase {S V : Type} (world : Schedule S V) (phase q : Phase) :
    q ∈ (registerPhase world phase).phases ↔ q ∈ world.phases ∨ q = phase := by
  unfold registerPhase
  split
  · rename_i hin
    constructor
    · exact Or.inl
    · rintro (h | rfl)
      · exact h
      · exact hin
  · have hperm := List.perm_insertionSort (fun a b : Nat => a ≤ b) (world.phases ++ [phase])
    show q ∈ List.insertionSort (fun a b : Nat => a ≤ b) (world.phases ++ [phase]) ↔ _
    rw [hperm.mem_iff, List.mem_append, List.mem_singleton]

theorem register_phases {S V : Type} (world : Schedule S V) (reg : Registration S V) :
    (register world reg).phases = (registerPhase world reg.phase).phases := by
  cases reg <;> rfl

theorem foldl_register_phases {S V : Type} (regs : List (Registration S V))
    (world : Schedule S V) (h : List.Sorted (fun a b : Nat => a < b) world.phases) :
    List.Sorted (fun a b : Nat => a < b) (regs.foldl register world).phases ∧
    ∀ q, q ∈ (regs.foldl register world).phases ↔
      q ∈ world.phases ∨ q ∈ regs.map Registration.phase := by
  induction regs generalizing world with
  | nil => simp [h]
  | cons reg rest ih =>
    have hs : List.Sorted (fun a b : Nat => a < b) (register world reg).phases := by
      rw [register_phases]
      exact registerPhase_sorted world reg.phase h
    obtain ⟨h1, h2⟩ := ih (register world reg) hs
    refine ⟨h1, ?_⟩
    intro q
    simp only [List.foldl_cons, h2, register_phases, mem_registerPhase, List.map_cons,
      List.mem_cons]
    tauto

/-! ## The log of a sweep -/

theorem sweep_cons_fatal {S V : Type} (sched : Schedule S V) (fanOut : FanOut S V)
    (p : Phase) (rest : List Phase) (world : Game S V)
    (h : Is (dispatchPhase sched fanOut p world).2.1 .ErrFatal = true) :
    sweep sched fanOut (p :: rest) world = dispatchPhase sched fanOut p world := by
  simp only [sweep, h, if_true]

theorem sweep_cons_ok {S V : Type} (sched : Schedule S V) (fanOut : FanOut S V)
    (p : Phase) (rest : List Phase) (world : Game S V)
    (h : Is (dispatchPhase sched fanOut p world).2.1 .ErrFatal = false) :
    sweep sched fanOut (p :: rest) world =
      ((sweep sched fanOut rest (dispatchPhase sched fanOut p world).1).1,
       (sweep sched fanOut rest (dispatchPhase sched fanOut p world).1).2.1,
       (dispatchPhase sched fanOut p world).2.2 ++
         (sweep sched fanOut rest (dispatchPhase sched fanOut p world).1).2.2) := by
  simp only [sweep, h, Bool.false_eq_true, if_false]

theorem sweep_log {S V : Type} (sched : Schedule S V) (fanOut : FanOut S V)
    (phases : List Phase) (world : Game S V) :
    dispatched (sweep sched fanOut phases world).2.2 <+: phases ∧
    ((sweep sched fanOut phases world).2.1 = none →
      dispatched (sweep sched fanOut phases world).2.2 = phases) ∧
    (∀ err, (sweep sched fanOut phases world).2.1 = some err → err.Is .ErrFatal = true) := by
  induction phases generalizing world with
  | nil => simp [sweep, dispatched]
  | cons p rest ih =>
    have hd := (dispatchPhase_log sched fanOut p world).1
    obtain ⟨h1, h2, h3⟩ := ih (dispatchPhase sched fanOut p world).1
    cases hf : Is (dispatchPhase sched fanOut p world).2.1 .ErrFatal with
    | true =>
      rw [sweep_cons_fatal sched fanOut p rest world hf]
      refine ⟨?_, ?_, ?_⟩
      · rw [hd]
        exact ⟨rest, rfl⟩
      · intro hnone
        rw [hnone] at hf
        cases hf
      · intro err herr
        rw [herr] at hf
        exact hf
    | false =>
      rw [sweep_cons_ok sched fanOut p rest world hf]
      refine ⟨?_, ?_, h3⟩
      · show dispatched (_ ++ _) <+: _
        rw [dispatched_append, hd]
        exact (List.prefix_cons_inj p).2 h1
      · intro hnone
        show dispatched (_ ++ _) = _
        rw [dispatched_append, hd, h2 hnone]
        rfl

/-- C16, as stated, fails: with actions registered at `ON_UPDATE` and then at
`PRE_FRAME`, the loop phases are `PRE_FRAME`, `ON_UPDATE`, but the action at
`PRE_FRAME` returns a fatal error, so the sweep dispatches `PRE_FRAME` only and
`Run` returns without ever dispatching the registered phase `ON_UPDATE`. -/
theorem C16_sweep_cut_short_counterexample :
    loopPhases schedFatalFrame = [PRE_FRAME, ON_UPDATE] ∧
    dispatched (sweep schedFatalFrame inOrder (loopPhases schedFatalFrame) gameStart).2.2 =
      [PRE_FRAME] ∧
    (Run schedFatalFrame inOrder 1 gameStart).map (fun r => dispatched r.2.2) =
      some [ON_START, PRE_FRAME] := by
  refine ⟨by decide, by decide, by decide⟩

/-- C16, amended. Phase order is ascending whatever the registration order: after
any sequence of `System` and `Action` registrations the phase list is strictly
ascending and contains each registered phase once; hence the loop phases are
the registered phases other than `ON_START` and `ON_END` in strictly ascending
order, every sweep dispatches an initial segment of them in that order, and a
sweep that no fatal error cuts short dispatches exactly all of them, each
once. -/
theorem C16_phase_order_ascending {S V : Type} (regs : List (Registration S V))
    (fanOut : FanOut S V) (world : Game S V) :
    List.Sorted (fun a b : Nat => a < b) (registerAll regs).phases ∧
    (registerAll regs).phases.Nodup ∧
    (∀ p, p ∈ (registerAll regs).phases ↔ p ∈ regs.map Registration.phase) ∧
    List.Sorted (fun a b : Nat => a < b) (loopPhases (registerAll regs)) ∧
    (loopPhases (registerAll regs)).Nodup ∧
    (∀ p, p ∈ loopPhases (registerAll regs) ↔
      p ∈ regs.map Registration.phase ∧ p ≠ ON_START ∧ p ≠ ON_END) ∧
    dispatched (sweep (registerAll regs) fanOut (loopPhases (registerAll regs)) world).2.2 <+:
      loopPhases (registerAll regs) ∧
    ((sweep (registerAll regs) fanOut (loopPhases (registerAll regs)) world).2.1 = none →
      dispatched (sweep (registerAll regs) fanOut (loopPhases (registerAll regs)) world).2.2 =
        loopPhases (registerAll regs)) := by
  obtain ⟨hsorted, hmem⟩ := foldl_register_phases regs (NewSchedule : Schedule S V)
    (by simp [NewSchedule])
  have hmem1 : ∀ p, p ∈ (registerAll regs).phases ↔ p ∈ regs.map Registration.phase := by
    intro p
    have := hmem p
    simpa [NewSchedule, registerAll] using this
  have hloop : List.Sorted (fun a b : Nat => a < b) (loopPhases (registerAll regs)) :=
    List.Sorted.filter _ hsorted
  obtain ⟨h1, h2, _⟩ := sweep_log (registerAll regs) fanOut (loopPhases (registerAll regs)) world
  refine ⟨hsorted, hsorted.nodup, hmem1, hloop, hloop.nodup, ?_, h1, h2⟩
  intro p
  unfold loopPhases
  rw [List.mem_filter, hmem1]
  simp

/-- Witness of C16 (amended): registrations at `ON_UPDATE`, `PRE_FRAME` and
`ON_END`, in that order; the sweep in which `Quit` is called has no fatal error
and dispatches `PRE_FRAME` then `ON_UPDATE`. -/
theorem C16_phase_order_ascending_witness :
    schedQuitInSweep.phases = [PRE_FRAME, ON_UPDATE, ON_END] ∧
    dispatched (sweep schedQuitInSweep inOrder (loopPhases schedQuitInSweep) gameStart).2.2 =
      loopPhases schedQuitInSweep ∧
    loopPhases schedQuitInSweep = [PRE_FRAME, ON_UPDATE] :=
  ⟨by decide,
   (C16_phase_order_ascending
      [.action ON_UPDATE idleAction, .action PRE_FRAME quitAction, .action ON_END idleAction]
      inOrder gameStart).2.2.2.2.2.2.2 (by decide),
   by decide⟩

/-! ## The run loop -/

theorem sweep_append_ok {S V : Type} (sched : Schedule S V) (fanOut : FanOut S V)
    (ps1 ps2 : List Phase) (world : Game S V)
    (h : (sweep sched fanOut ps1 world).2.1 = none) :
    sweep sched fanOut (ps1 ++ ps2) world =
      ((sweep sched fanOut ps2 (sweep sched fanOut ps1 world).1).1,
       (sweep sched fanOut ps2 (sweep sched fanOut ps1 world).1).2.1,
       (sweep sched fanOut ps1 world).2.2 ++
         (sweep sched fanOut ps2 (sweep sched fanOut ps1 world).1).2.2) := by
  induction ps1 generalizing world with
  | nil => simp [sweep]
  | cons p rest ih =>
    cases hf : Is (dispatchPhase sched fanOut p world).2.1 .ErrFatal with
    | true =>
      rw [sweep_cons_fatal sched fanOut p rest world hf] at h
      rw [h] at hf
      cases hf
    | false =>
      rw [sweep_cons_ok sched fanOut p rest world hf] at h
      have hrec := ih (dispatchPhase sched fanOut p world).1 h
      rw [List.cons_append, sweep_cons_ok sched fanOut p (rest ++ ps2) world hf, hrec,
        sweep_cons_ok sched fanOut p rest world hf]
      simp only [List.append_assoc]

theorem sweep_keeps_quit {S V : Type} (sched : Schedule S V) (fanOut : FanOut S V)
    (hkeep : ∀ (p : Phase) (g : Game S V), g.shouldQuit = true →
      (dispatchPhase sched fanOut p g).1.shouldQuit = true)
    (phases : List Phase) (world : Game S V) (h : world.shouldQuit = true) :
    (sweep sched fanOut phases world).1.shouldQuit = true := by
  induction phases generalizing world with
  | nil => simpa [sweep] using h
  | cons p rest ih =>
    cases hf : Is (dispatchPhase sched fanOut p world).2.1 .ErrFatal with
    | true =>
      rw [sweep_cons_fatal sched fanOut p rest world hf]
      exact hkeep p world h
    | false =>
      rw [sweep_cons_ok sched fanOut p rest world hf]
      exact ih _ (hkeep p world h)

theorem gameLoop_of_quit {S V : Type} (sched : Schedule S V) (fanOut : FanOut S V)
    (phases : List Phase) (fuel : Nat) (world : Game S V) (h : world.shouldQuit = true) :
    gameLoop sched fanOut phases fuel world = some (world, none, []) := by
  cases fuel <;> simp [gameLoop, h]

theorem gameLoop_last_sweep {S V : Type} (sched : Schedule S V) (fanOut : FanOut S V)
    (phases : List Phase) (fuel : Nat) (world : Game S V) (h : world.shouldQuit = false)
    (hok : (sweep sched fanOut phases world).2.1 = none)
    (hquit : (sweep sched fanOut phases world).1.shouldQuit = true) :
    gameLoop sched fanOut phases (fuel + 1) world =
      some ((sweep sched fanOut phases world).1, none, (sweep sched fanOut phases world).2.2) := by
  simp only [gameLoop, h, Bool.false_eq_true, if_false, hok,
    gameLoop_of_quit sched fanOut phases fuel _ hquit, List.append_nil]

theorem gameLoop_log_mem {S V : Type} (sched : Schedule S V) (fanOut : FanOut S V)
    (phases : List Phase) (fuel : Nat) (world world1 : Game S V) (r : Option GoError)
    (log : List Event)
    (h : gameLoop sched fanOut phases fuel world = some (world1, r, log)) :
    ∀ p ∈ dispatched log, p ∈ phases := by
  induction fuel generalizing world world1 r log with
  | zero =>
    unfold gameLoop at h
    split at h
    · cases h
      simp [dispatched]
    · cases h
  | succ n ih =>
    unfold gameLoop at h
    split at h
    · cases h
      simp [dispatched]
    · have hpre := (sweep_log sched fanOut phases world).1
      cases hs : (sweep sched fanOut phases world).2.1 with
      | some err =>
        simp only [hs] at h
        cases h
        intro p hp
        exact hpre.subset hp
      | none =>
        simp only [hs] at h
        cases hrec : gameLoop sched fanOut phases n (sweep sched fanOut phases world).1 with
        | none => rw [hrec] at h; cases h
        | some out =>
          rw [hrec] at h
          cases h
          intro p hp
          rw [dispatched_append, List.mem_append] at hp
          rcases hp with hp | hp
          · exact hpre.subset hp
          · exact ih _ out.1 out.2.1 out.2.2 hrec p hp

theorem ON_END_not_loop {S V : Type} (sched : Schedule S V) : ON_END ∉ loopPhases sched := by
  unfold loopPhases
  simp [List.mem_filter]

theorem ON_START_not_loop {S V : Type} (sched : Schedule S V) : ON_START ∉ loopPhases sched := by
  unfold loopPhases
  simp [List.mem_filter]

theorem Run_of_loop_end {S V : Type} (sched : Schedule S V) (fanOut : FanOut S V)
    (fuel : Nat) (world world1 : Game S V) (log : List Event)
    (hstart : Is (dispatchPhase sched fanOut ON_START world).2.1 .ErrFatal = false)
    (hloop : gameLoop sched fanOut (loopPhases sched) fuel
      (dispatchPhase sched fanOut ON_START world).1 = some (world1, none, log)) :
    ∃ r, Run sched fanOut fuel world =
      some ((dispatchPhase sched fanOut ON_END world1).1, r,
        (dispatchPhase sched fanOut ON_START world).2.2 ++ log ++
          (dispatchPhase sched fanOut ON_END world1).2.2) := by
  unfold Run
  simp only [hstart, hloop]
  cases hfin : Is (dispatchPhase sched fanOut ON_END world1).2.1 .ErrFatal <;> simp

theorem dispatchPhase_keeps_quit {S V : Type} (sched : Schedule S V) (fanOut : FanOut S V)
    (hacts : ∀ (p : Phase), ∀ a ∈ sched.actions p, ∀ g : Game S V,
      g.shouldQuit = true → (a g).1.shouldQuit = true)
    (hfan : ∀ (p : Phase) (g : Game S V), g.shouldQuit = true →
      (fanOut (sched.systems p) g).1.shouldQuit = true)
    (p : Phase) (g : Game S V) (h : g.shouldQuit = true) :
    (dispatchPhase sched fanOut p g).1.shouldQuit = true := by
  have hfold : ∀ (acts : List (Action S V)) (g : Game S V),
      (∀ a ∈ acts, ∀ g : Game S V, g.shouldQuit = true → (a g).1.shouldQuit = true) →
      g.shouldQuit = true → (acts.foldl (fun g a => (a g).1) g).shouldQuit = true := by
    intro acts
    induction acts with
    | nil => intro g _ hg; exact hg
    | cons a rest ih =>
      intro g hall hg
      exact ih (a g).1 (fun b hb => hall b (List.mem_cons_of_mem _ hb))
        (hall a (List.mem_cons_self _ _) g hg)
  obtain ⟨_, h2, h3⟩ := runActions_spec p (sched.actions p) 0 g none
  have hafter := hfold (sched.actions p) g (hacts p) h
  rw [← h3] at hafter
  unfold dispatchPhase
  cases hacc : (runActions p (sched.actions p) 0 g none).2.1 with
  | some e => simpa only [hacc] using hafter
  | none =>
    simp only [hacc]
    exact hfan p _ hafter

theorem registerPhase_tables {S V : Type} (world : Schedule S V) (phase : Phase) :
    (registerPhase world phase).actions = world.actions ∧
    (registerPhase world phase).systems = world.systems := by
  unfold registerPhase
  split <;> exact ⟨rfl, rfl⟩

theorem mem_actions_register {S V : Type} (world : Schedule S V) (reg : Registration S V)
    (p : Phase) (a : Action S V) (h : a ∈ (register world reg).actions p) :
    a ∈ world.actions p ∨ ∃ ph, reg = .action ph a := by
  cases reg with
  | system ph s =>
    left
    have hsame : (register world (.system ph s)).actions = world.actions := by
      simp only [register, registerSystem, (registerPhase_tables world ph).1]
    rw [hsame] at h
    exact h
  | action ph b =>
    have hact : (register world (.action ph b)).actions p =
        if p = ph then world.actions ph ++ [b] else world.actions p := by
      simp only [register, registerAction, (registerPhase_tables world ph).1]
    rw [hact] at h
    split at h
    · rename_i hp
      rw [List.mem_append, List.mem_singleton] at h
      rcases h with h | h
      · left; rw [hp]; exact h
      · right; exact ⟨ph, by rw [h]⟩
    · left; exact h

theorem mem_systems_register {S V : Type} (world : Schedule S V) (reg : Registration S V)
    (p : Phase) (s : System S V) (h : s ∈ (register world reg).systems p) :
    s ∈ world.systems p ∨ ∃ ph, reg = .system ph s := by
  cases reg with
  | action ph a =>
    left
    have hsame : (register world (.action ph a)).systems = world.systems := by
      simp only [register, registerAction, (registerPhase_tables world ph).2]
    rw [hsame] at h
    exact h
  | system ph b =>
    have hsys : (register world (.system ph b)).systems p =
        if p = ph then world.systems ph ++ [b] else world.systems p := by
      simp only [register, registerSystem, (registerPhase_tables world ph).2]
    rw [hsys] at h
    split at h
    · rename_i hp
      rw [List.mem_append, List.mem_singleton] at h
      rcases h with h | h
      · left; rw [hp]; exact h
      · right; exact ⟨ph, by rw [h]⟩
    · left; exact h

theorem mem_registerAll {S V : Type} (regs : List (Registration S V)) (world : Schedule S V)
    (p : Phase) :
    (∀ a ∈ (regs.foldl register world).actions p,
      a ∈ world.actions p ∨ ∃ ph, Registration.action ph a ∈ regs) ∧
    (∀ s ∈ (regs.foldl register world).systems p,
      s ∈ world.systems p ∨ ∃ ph, Registration.system ph s ∈ regs) := by
  induction regs generalizing world with
  | nil => exact ⟨fun a h => Or.inl h, fun s h => Or.inl h⟩
  | cons reg rest ih =>
    obtain ⟨h1, h2⟩ := ih (register world reg)
    constructor
    · intro a ha
      rcases h1 a ha with h | ⟨ph, h⟩
      · rcases mem_actions_register world reg p a h with h | ⟨ph, h⟩
        · exact Or.inl h
        · exact Or.inr ⟨ph, by rw [h]; exact List.mem_cons_self _ _⟩
      · exact Or.inr ⟨ph, List.mem_cons_of_mem _ h⟩
    · intro s hs
      rcases h2 s hs with h | ⟨ph, h⟩
      · rcases mem_systems_register world reg p s h with h | ⟨ph, h⟩
        · exact Or.inl h
        · exact Or.inr ⟨ph, by rw [h]; exact List.mem_cons_self _ _⟩
      · exact Or.inr ⟨ph, List.mem_cons_of_mem _ h⟩

theorem inOrder_keeps_quit {S V : Type} (syss : List (System S V)) (g : Game S V)
    (hall : ∀ s ∈ syss, ∀ (g : Game S V) (ents : List Entity),
      g.shouldQuit = true → (s g ents).1.shouldQuit = true)
    (h : g.shouldQuit = true) : (inOrder syss g).1.shouldQuit = true := by
  induction syss generalizing g with
  | nil => exact h
  | cons s rest ih =>
    exact ih _ (fun t ht => hall t (List.mem_cons_of_mem _ ht))
      (hall s (List.mem_cons_self _ _) g _ h)

theorem keeps_quit_schedQuitInSweep (p : Phase) (g : Game Unit String)
    (h : g.shouldQuit = true) :
    (dispatchPhase schedQuitInSweep inOrder p g).1.shouldQuit = true := by
  apply dispatchPhase_keeps_quit schedQuitInSweep inOrder ?_ ?_ p g h
  · intro p a ha g hg
    rcases (mem_registerAll _ NewSchedule p).1 a ha with h0 | ⟨ph, h0⟩
    · simp [NewSchedule] at h0
    · simp only [List.mem_cons, Registration.action.injEq, List.mem_singleton,
        List.not_mem_nil, or_false] at h0
      rcases h0 with ⟨_, rfl⟩ | ⟨_, rfl⟩ | ⟨_, rfl⟩
      · exact hg
      · rfl
      · exact hg
  · intro p g hg
    apply inOrder_keeps_quit _ g ?_ hg
    intro s hs
    rcases (mem_registerAll _ NewSchedule p).2 s hs with h0 | ⟨ph, h0⟩
    · simp [NewSchedule] at h0
    · simp at h0

/-- C18, as stated, fails: with an `ON_START` action that calls `Quit` followed
by one that returns a fatal error, `Quit` has been called during `ON_START`, yet
`Run` returns the fatal error having dispatched `ON_START` only: `ON_END` is not
dispatched. -/
theorem C18_quit_then_fatal_start_counterexample :
    (dispatchPhase schedQuitThenFatal inOrder ON_START gameStart).1.shouldQuit = true ∧
    (Run schedQuitThenFatal inOrder 1 gameStart).map
        (fun r => (Is r.2.1 .ErrFatal, dispatched r.2.2)) =
      some (true, [ON_START]) := by
  constructor <;> decide

/-- C18, amended. `Quit` stops the loop after the current sweep, the quit flag
never being cleared by a dispatch: when `Quit` is called while a sweep is in
progress (the flag, unset at the head of the loop, is set after the phases
`ps1` of the sweep) and no fatal error occurs, the remaining phases `ps2` of
that sweep are still dispatched and the loop ends without another sweep; when
the loop ends normally `Run` dispatches `ON_END` right after it, once in the
whole run; and when `Quit` has been called before `Run` or during `ON_START`
and the dispatch of `ON_START` is not fatal, no loop phase is dispatched and
`ON_END` is dispatched right after `ON_START`. -/
theorem C18_quit_stops_after_sweep {S V : Type} (sched : Schedule S V) (fanOut : FanOut S V)
    (hkeep : ∀ (p : Phase) (g : Game S V), g.shouldQuit = true →
      (dispatchPhase sched fanOut p g).1.shouldQuit = true) :
    (∀ (fuel : Nat) (ps1 ps2 : List Phase) (g : Game S V),
      ps1 ++ ps2 = loopPhases sched → g.shouldQuit = false →
      (sweep sched fanOut ps1 g).2.1 = none →
      (sweep sched fanOut ps1 g).1.shouldQuit = true →
      (sweep sched fanOut ps2 (sweep sched fanOut ps1 g).1).2.1 = none →
      ∃ g2 log, gameLoop sched fanOut (loopPhases sched) (fuel + 1) g = some (g2, none, log) ∧
        dispatched log = loopPhases sched) ∧
    (∀ (fuel : Nat) (world g2 : Game S V) (log : List Event),
      Is (dispatchPhase sched fanOut ON_START world).2.1 .ErrFatal = false →
      gameLoop sched fanOut (loopPhases sched) fuel
        (dispatchPhase sched fanOut ON_START world).1 = some (g2, none, log) →
      ∃ g3 r log3, Run sched fanOut fuel world = some (g3, r, log3) ∧
        dispatched log3 = ON_START :: (dispatched log ++ [ON_END]) ∧
        (dispatched log3).count ON_END = 1) ∧
    (∀ (fuel : Nat) (world : Game S V),
      Is (dispatchPhase sched fanOut ON_START world).2.1 .ErrFatal = false →
      (world.shouldQuit = true ∨
        (dispatchPhase sched fanOut ON_START world).1.shouldQuit = true) →
      ∃ g3 r log3, Run sched fanOut fuel world = some (g3, r, log3) ∧
        dispatched log3 = [ON_START, ON_END]) := by
  have hrun : ∀ (fuel : Nat) (world g2 : Game S V) (log : List Event),
      Is (dispatchPhase sched fanOut ON_START world).2.1 .ErrFatal = false →
      gameLoop sched fanOut (loopPhases sched) fuel
        (dispatchPhase sched fanOut ON_START world).1 = some (g2, none, log) →
      ∃ g3 r log3, Run sched fanOut fuel world = some (g3, r, log3) ∧
        dispatched log3 = ON_START :: (dispatched log ++ [ON_END]) := by
    intro fuel world g2 log hstart hloop
    obtain ⟨r, hr⟩ := Run_of_loop_end sched fanOut fuel world g2 log hstart hloop
    refine ⟨_, r, _, hr, ?_⟩
    rw [dispatched_append, dispatched_append, (dispatchPhase_log sched fanOut ON_START world).1,
      (dispatchPhase_log sched fanOut ON_END g2).1]
    rfl
  refine ⟨?_, ?_, ?_⟩
  · intro fuel ps1 ps2 g hsplit hg hok1 hquit hok2
    have happ := sweep_append_ok sched fanOut ps1 ps2 g hok1
    rw [hsplit] at happ
    have hok : (sweep sched fanOut (loopPhases sched) g).2.1 = none := by
      rw [happ]
      exact hok2
    have hq : (sweep sched fanOut (loopPhases sched) g).1.shouldQuit = true := by
      rw [happ]
      exact sweep_keeps_quit sched fanOut hkeep ps2 _ hquit
    refine ⟨_, _, gameLoop_last_sweep sched fanOut (loopPhases sched) fuel g hg hok hq, ?_⟩
    exact (sweep_log sched fanOut (loopPhases sched) g).2.1 hok
  · intro fuel world g2 log hstart hloop
    obtain ⟨g3, r, log3, hr, hd⟩ := hrun fuel world g2 log hstart hloop
    refine ⟨g3, r, log3, hr, hd, ?_⟩
    have hnot : ON_END ∉ dispatched log := fun hin =>
      ON_END_not_loop sched (gameLoop_log_mem sched fanOut _ fuel _ g2 none log hloop ON_END hin)
    have hne : ON_START ≠ ON_END := by decide
    rw [hd, List.count_cons, List.count_append, List.count_eq_zero_of_not_mem hnot]
    simp [hne]
  · intro fuel world hstart hq
    have hq1 : (dispatchPhase sched fanOut ON_START world).1.shouldQuit = true := by
      rcases hq with hq | hq
      · exact hkeep ON_START world hq
      · exact hq
    have hloop := gameLoop_of_quit sched fanOut (loopPhases sched) fuel _ hq1
    obtain ⟨g3, r, log3, hr, hd⟩ := hrun fuel world _ [] hstart hloop
    exact ⟨g3, r, log3, hr, by simpa [dispatched] using hd⟩

/-- Witness of C18 (amended): `Quit` is called by the action at `PRE_FRAME`; the
sweep still dispatches `ON_UPDATE`, the loop ends after it, and with `Quit`
called before `Run` only `ON_START` and `ON_END` are dispatched. -/
theorem C18_quit_stops_after_sweep_witness :
    (∃ g2 log, gameLoop schedQuitInSweep inOrder (loopPhases schedQuitInSweep) 1 gameStart =
        some (g2, none, log) ∧ dispatched log = loopPhases schedQuitInSweep) ∧
    (∃ g3 r log3, Run schedQuitInSweep inOrder 0 (Quit gameStart) = some (g3, r, log3) ∧
        dispatched log3 = [ON_START, ON_END]) :=
  have h := C18_quit_stops_after_sweep schedQuitInSweep inOrder keeps_quit_schedQuitInSweep
  ⟨h.1 0 [PRE_FRAME] [ON_UPDATE] gameStart (by decide) rfl (by decide) (by decide) (by decide),
   h.2.2 0 (Quit gameStart) (by decide) (Or.inl rfl)⟩

end Meowngine
